import Mathlib

/-!
Verification of the gemini-code-reviewer MCP server (server.js, v2.0.8).

The JavaScript source is shallowly embedded: JS strings are `List Char`,
JS byte buffers are `List Nat`, fallible JS code returns `Except`, and the
event-driven subprocess runner is a step function over an explicit state.
All definitions are executable and follow the source line by line.
-/

namespace GeminiReviewer

/-! ## JS values and basic string operations

A JS value as it can arrive from the transport layer: `vStr` is a string,
`vNull` and `vUndefined` are the two JS nullish values, and `vOther` stands
for any other non-string value (number, boolean, object).  The source only
distinguishes falsiness and `typeof x === 'string'`, and every non-string
value (truthy or falsy) takes the same path in `sanitizeInput`, so one
constructor suffices for them.
-/
inductive JSVal where
  | vNull
  | vUndefined
  | vStr (s : List Char)
  | vOther
  deriving DecidableEq

/-- Whitespace for the purposes of JS `String.prototype.trim` and the
regex class `\s`, restricted to the ASCII range (space, tab, LF, CR,
vertical tab, form feed).  The server only handles ASCII-range text. -/
def isWsChar (c : Char) : Bool :=
  c.toNat == 32 || c.toNat == 9 || c.toNat == 10 ||
  c.toNat == 13 || c.toNat == 11 || c.toNat == 12

/-- JS `String.prototype.trim`: drop whitespace from both ends. -/
def trimWs (l : List Char) : List Char :=
  ((l.dropWhile isWsChar).reverse.dropWhile isWsChar).reverse

/-- Characters removed by the sanitizer regex
`[\x00-\x08\x0B\x0C\x0E-\x1F\x7F]` in `sanitizeInput`. -/
def isStrippedCtl (c : Char) : Bool :=
  c.toNat ≤ 8 || c.toNat == 11 || c.toNat == 12 ||
  (14 ≤ c.toNat && c.toNat ≤ 31) || c.toNat == 127

/-- JS `.replace(/\r\n/g, '\n')`. -/
def crlfToLf : List Char → List Char
  | [] => []
  | c1 :: c2 :: t =>
      if c1 = '\r' ∧ c2 = '\n' then '\n' :: crlfToLf t
      else c1 :: crlfToLf (c2 :: t)
  | [c] => [c]

/-- Decimal rendering of a Nat, for building the JS template-literal
error messages. -/
def natStr (n : Nat) : List Char := (Nat.repr n).data

/-! ## Configuration constants (`this.config` in the constructor) -/

def maxFileSize : Nat := 1024 * 1024
def maxPromptLength : Nat := 100000
def commandTimeout : Nat := 60000

/-! ## sanitizeInput (source lines 119-132)

Returns `.error msg` where the JS throws, `.ok s` where it returns `s`.
-/
def sanitizeInput (input : JSVal) (maxLength : Nat) : Except (List Char) (List Char) :=
  match input with
  | .vStr s =>
      if s = [] then .ok []
      else if s.length > maxLength then
        .error (("Input too long: ".data) ++ natStr s.length ++
                " characters (max: ".data ++ natStr maxLength ++ ")".data)
      else .ok (trimWs (crlfToLf (s.filter (fun c => !isStrippedCtl c))))
  | _ => .ok []

/-! ## Binary-content gate (source lines 88-99, inside validateFileAccess)

A file is a `List Nat` of its bytes; the source reads at most the first
512 bytes into `sample`.  The float comparison
`nonPrintable > bytesRead * 0.3` is modelled as `10 * nonPrintable >
3 * bytesRead`: for integer operands bounded by 512 the IEEE-double
expression `bytesRead * 0.3` rounds to the exact rational whenever the
comparison is on the boundary, so the two conditions agree on every
reachable input.
-/

/-- Bytes counted as non-printable by the gate: below 32 and not tab,
line feed, or carriage return. -/
def nonPrintB (b : Nat) : Bool :=
  b < 32 && b != 9 && b != 10 && b != 13

def isBinarySample (sample : List Nat) : Bool :=
  let nullBytes := (sample.filter (fun b => b == 0)).length
  let nonPrintable := (sample.filter nonPrintB).length
  nullBytes > 0 || 10 * nonPrintable > 3 * sample.length

def isBinary (file : List Nat) : Bool :=
  isBinarySample (file.take 512)

/-! ## executeGeminiCommand, pre-spawn phase (source lines 189-206)

Everything that happens before `spawn` is called: the prompt is
sanitized (a sanitizer throw inside the Promise executor rejects the
promise), and an empty sanitized prompt rejects without spawning.
-/

def emptyPromptMsg : List Char := "Empty or invalid prompt after sanitization".data

inductive ExecPre where
  | rejected (msg : List Char)
  | spawned (sanitizedPrompt : List Char)
  deriving DecidableEq

def execGeminiPreSpawn (prompt : JSVal) : ExecPre :=
  match sanitizeInput prompt maxPromptLength with
  | .error m => .rejected m
  | .ok [] => .rejected emptyPromptMsg
  | .ok s => .spawned s

/-! ## POSIX path model (`node:path`, as used by the server)

Paths are ASCII strings with `/` as separator.  `process.cwd()` is an
absolute path with no trailing slash, which the resolution model assumes
of `workingDirectory`.
-/

/-- Split a character list at every `/`. -/
def splitOnSlash : List Char → List (List Char)
  | [] => [[]]
  | c :: t =>
      match splitOnSlash t, decEq c '/' with
      | r, .isTrue _ => [] :: r
      | [], .isFalse _ => [[c]]
      | s :: r, .isFalse _ => (c :: s) :: r

/-- One step of segment normalization: empty and `.` segments vanish,
`..` pops the previous segment (a no-op at the root, as for Node
normalization of absolute paths), anything else is kept. -/
def normStep (stack : List (List Char)) (seg : List Char) : List (List Char) :=
  if seg = [] ∨ seg = ['.'] then stack
  else if seg = ['.', '.'] then stack.dropLast
  else stack ++ [seg]

def normSegsAbs (segs : List (List Char)) : List (List Char) :=
  segs.foldl normStep []

def segsToAbs (segs : List (List Char)) : List Char :=
  '/' :: (List.intercalate ['/'] segs)

def isAbsoluteL : List Char → Bool
  | '/' :: _ => true
  | _ => false

/-- `path.normalize` on an absolute POSIX path (trailing-slash
preservation is irrelevant to the inputs this server builds). -/
def normalizeAbs (p : List Char) : List Char :=
  segsToAbs (normSegsAbs (splitOnSlash p))

/-- `path.resolve(workingDirectory, p)` with `workingDirectory` absolute. -/
def resolveAbs (workingDirectory p : List Char) : List Char :=
  if isAbsoluteL p then normalizeAbs p
  else normalizeAbs (workingDirectory ++ '/' :: p)

def startsWithL : List Char → List Char → Bool
  | [], _ => true
  | _ :: _, [] => false
  | a :: p, b :: l => a == b && startsWithL p l

/-- Index of the last `.` in a list, if any. -/
def lastIndexOfDot : List Char → Option Nat
  | [] => none
  | c :: t =>
      match lastIndexOfDot t with
      | some i => some (i + 1)
      | none => if c = '.' then some 0 else none

/-- `path.extname`: the suffix of the basename from its last dot,
empty when the basename has no dot or starts with its only dot. -/
def extnameL (p : List Char) : List Char :=
  let base := (splitOnSlash p).getLastD []
  match lastIndexOfDot base with
  | some i => if i = 0 then [] else base.drop i
  | none => []

/-- `path.relative(fromP, toP)` for absolute POSIX paths. -/
def relativeL (fromP toP : List Char) : List Char :=
  let rec stripCommon : List (List Char) → List (List Char) → (List (List Char) × List (List Char))
    | a :: as_, b :: bs => if a = b then stripCommon as_ bs else (a :: as_, b :: bs)
    | as_, bs => (as_, bs)
  let (fr, tr) := stripCommon (normSegsAbs (splitOnSlash fromP)) (normSegsAbs (splitOnSlash toP))
  List.intercalate ['/'] (fr.map (fun _ => ['.', '.']) ++ tr)

/-- `path.basename`. -/
def basenameL (p : List Char) : List Char :=
  (normSegsAbs (splitOnSlash p)).getLastD p

def toLowerL (l : List Char) : List Char := l.map Char.toLower

/-! ## validateFilePath (source lines 50-72) -/

def invalidPathMsg : List Char := "Invalid file path: must be a non-empty string".data
def traversalMsg : List Char := "Invalid file path: path traversal detected".data

/-- `this.config.allowedFileExtensions`. -/
def allowedFileExtensions : List (List Char) :=
  [".js".data, ".ts".data, ".py".data, ".java".data, ".cpp".data, ".c".data,
   ".cs".data, ".php".data, ".rb".data, ".go".data, ".rs".data, ".kt".data,
   ".swift".data, ".pine".data, ".pinescript".data, ".sh".data, ".bash".data,
   ".ps1".data, ".sql".data, ".html".data, ".css".data, ".scss".data,
   ".sass".data, ".vue".data, ".jsx".data, ".tsx".data, ".dart".data,
   ".r".data, ".m".data, ".scala".data, ".clj".data, ".hs".data, ".ml".data,
   ".ex".data, ".erl".data, ".lua".data, ".pl".data, ".vim".data]

/-- The validator as written: resolve, then — only for a relative input —
a plain `String.prototype.startsWith(workingDirectory)` test, then the
extension allow-list. -/
def validateFilePath (workingDirectory : List Char) (filePath : JSVal) :
    Except (List Char) (List Char) :=
  match filePath with
  | .vStr s =>
      if s = [] then .error invalidPathMsg
      else
        let resolvedPath := if isAbsoluteL s then normalizeAbs s
                            else resolveAbs workingDirectory s
        if !isAbsoluteL s && !startsWithL workingDirectory resolvedPath then
          .error traversalMsg
        else
          let ext := toLowerL (extnameL resolvedPath)
          if allowedFileExtensions.contains ext then .ok resolvedPath
          else .error ("Unsupported file extension: ".data ++ ext)
  | _ => .error invalidPathMsg

/-- The boundary rule stated by the spec (for comparison with the code):
the resolved path is the root itself or extends it across a separator. -/
def specRootBoundary (root p : List Char) : Bool :=
  p == root || startsWithL (root ++ ['/']) p

/-! ## parseActionableSuggestion (source lines 310-335)

The two regexes `--- OLD_CODE ---\n([\s\S]*?)\n--- END_OLD_CODE ---` and
`--- NEW_CODE ---\n([\s\S]*?)\n--- END_NEW_CODE ---` are embedded
directly: a JS regex match is leftmost, and the lazy group extends to the
first occurrence of the closing delimiter, so the match of
`open\n([\s\S]*?)\nclose` starts at the first occurrence of the literal
`open ++ "\n"` and captures up to the first occurrence of
`"\n" ++ close` after the capture start.  (If the first occurrence of the
opening literal has no closing literal after it, no later one has either,
so the whole regex fails exactly when this search fails.)
-/

/-- First index at which `n` occurs as a contiguous sublist of `s`. -/
def findSub (n : List Char) : List Char → Option Nat
  | [] => if startsWithL n [] then some 0 else none
  | c :: t =>
      if startsWithL n (c :: t) then some 0
      else (findSub n t).map (fun k => k + 1)

def containsL (n s : List Char) : Bool := (findSub n s).isSome

def oldOpenM : List Char := "--- OLD_CODE ---".data
def oldCloseM : List Char := "--- END_OLD_CODE ---".data
def newOpenM : List Char := "--- NEW_CODE ---".data
def newCloseM : List Char := "--- END_NEW_CODE ---".data

structure BlockMatch where
  start : Nat
  stop : Nat
  capture : List Char
  deriving DecidableEq

/-- `responseText.match(regex)` for `open\n([\s\S]*?)\nclose`:
match bounds plus the captured group. -/
def matchBlock (openM closeM s : List Char) : Option BlockMatch :=
  match findSub (openM ++ ['\n']) s with
  | none => none
  | some i =>
      match findSub ('\n' :: closeM) (s.drop (i + openM.length + 1)) with
      | none => none
      | some d =>
          some ⟨i, i + openM.length + 1 + d + 1 + closeM.length,
                (s.drop (i + openM.length + 1)).take d⟩

/-- `text.replace(regex, '')` for a non-global regex: remove the first
match, or return the text unchanged when there is none. -/
def removeBlock (openM closeM s : List Char) : List Char :=
  match matchBlock openM closeM s with
  | some m => s.take m.start ++ s.drop m.stop
  | none => s

structure Suggestion where
  explanation : List Char
  oldCode : List Char
  newCode : List Char
  deriving DecidableEq

/-- The parser as written: both matches must exist and both captured
groups must be truthy (JS: non-empty strings); the explanation is the
text with both first matches replaced by the empty string, trimmed. -/
def parseActionableSuggestion (responseText : List Char) : Option Suggestion :=
  match matchBlock oldOpenM oldCloseM responseText,
        matchBlock newOpenM newCloseM responseText with
  | some om, some nm =>
      if om.capture = [] ∨ nm.capture = [] then none
      else
        some ⟨trimWs (removeBlock newOpenM newCloseM
                        (removeBlock oldOpenM oldCloseM responseText)),
              om.capture, nm.capture⟩
  | _, _ => none

/-! ## executeGeminiCommand after spawn (source lines 208-265)

The four event handlers (`setTimeout` callback, `stdout` data, `stderr`
data, `close`, `error`) run one at a time on the Node event loop; an
invocation is a sequence of such events.  `resolutions` records every
`resolve`/`reject` the handlers perform, in order; the code intends it
to end up a singleton.
-/

inductive Outcome where
  | success (output : List Char) (stderrWarn : Option (List Char)) (hasOutput : Bool)
  | timeout (timeoutMs : Nat)
  | outputTooLarge
  | exitFailure (code : Option Int) (stderrMsg : List Char)
  | spawnError (msg : List Char)
  deriving DecidableEq

inductive Event where
  | timeoutFire
  | stdoutData (d : List Char)
  | stderrData (d : List Char)
  | closed (code : Option Int)
  | errored (msg : List Char)
  deriving DecidableEq

structure RunState where
  stdout : List Char
  stderr : List Char
  processFinished : Bool
  timeoutTriggered : Bool
  resolutions : List Outcome
  deriving DecidableEq

def initState : RunState := ⟨[], [], false, false, []⟩

/-- One event-handler execution, exactly as the source guards it. -/
def step (timeoutMs : Nat) (st : RunState) (e : Event) : RunState :=
  match e with
  | .timeoutFire =>
      if !st.processFinished then
        { st with timeoutTriggered := true,
                  resolutions := st.resolutions ++ [.timeout timeoutMs] }
      else st
  | .stdoutData d =>
      let stdout' := st.stdout ++ d
      if stdout'.length > maxFileSize * 2 then
        if !st.processFinished && !st.timeoutTriggered then
          { st with stdout := stdout', processFinished := true,
                    resolutions := st.resolutions ++ [.outputTooLarge] }
        else { st with stdout := stdout' }
      else { st with stdout := stdout' }
  | .stderrData d => { st with stderr := st.stderr ++ d }
  | .closed code =>
      if st.processFinished || st.timeoutTriggered then st
      else
        let hasOutput := (trimWs st.stdout).length > 0
        if code = some 0 then
          { st with processFinished := true,
                    resolutions := st.resolutions ++
                      [.success (trimWs st.stdout)
                         (if trimWs st.stderr = [] then none
                          else some (trimWs st.stderr)) hasOutput] }
        else
          { st with processFinished := true,
                    resolutions := st.resolutions ++
                      [.exitFailure code
                         (if st.stderr = [] then "No error message".data
                          else st.stderr)] }
  | .errored m =>
      if st.processFinished || st.timeoutTriggered then st
      else { st with processFinished := true,
                     resolutions := st.resolutions ++ [.spawnError m] }

def runEvents (timeoutMs : Nat) (events : List Event) : RunState :=
  events.foldl (step timeoutMs) initState

/-- Events whose handlers unconditionally resolve or reject when the
invocation is still unsettled: the timer, process close, and spawn
error. -/
def isTerminalEvent : Event → Bool
  | .timeoutFire => true
  | .closed _ => true
  | .errored _ => true
  | _ => false

/-- Number of timer firings in a trace; a Node `setTimeout` timer fires
at most once, so every real trace has at most one. -/
def countTimeouts (events : List Event) : Nat :=
  events.countP (fun e => e == .timeoutFire)

/-! ## Session tracking (source lines 268-308) -/

/-- The `additionalData` spread into a session entry; each operation
sets a different subset of these tags. -/
structure ExtraData where
  language : Option (List Char) := none
  context : Option (List Char) := none
  focusAreas : Option (List Char) := none
  analysisType : Option (List Char) := none
  improvementGoals : Option (List Char) := none
  validationFocus : Option (List Char) := none
  actionable : Option Bool := none
  deriving DecidableEq

structure SessionEntry where
  timestamp : List Char
  operation : List Char
  file : List Char
  success : Bool
  errorMsg : Option (List Char)
  extra : ExtraData
  deriving DecidableEq

structure Session where
  lastReview : Option SessionEntry
  reviewHistory : List SessionEntry
  deriving DecidableEq

/-- The `file` field of a session entry:
`filePath ? (path.relative(wd, filePath) || path.basename(filePath)) : 'unknown'`. -/
def trackFile (workingDirectory : List Char) (filePath : Option (List Char)) : List Char :=
  match filePath with
  | some p =>
      let r := relativeL workingDirectory p
      if r = [] then basenameL p else r
  | none => "unknown".data

/-- `trackOperationResult` (source lines 268-288): build the entry, push
it onto `reviewHistory`, and move `lastReview` to it on success. -/
def trackOperationResult (now workingDirectory : List Char) (st : Session)
    (operation : List Char) (filePath : Option (List Char)) (success : Bool)
    (errorMsg : Option (List Char)) (extra : ExtraData) : Session × SessionEntry :=
  let result : SessionEntry :=
    ⟨now, operation, trackFile workingDirectory filePath, success, errorMsg, extra⟩
  (⟨if success then some result else st.lastReview,
    st.reviewHistory ++ [result]⟩, result)

def underscoresToSpaces (l : List Char) : List Char :=
  l.map (fun c => if c = '_' then ' ' else c)

/-! ## Operation pipeline (source lines 359-753)

The transport and filesystem are abstracted into an environment: `fs`
answers the `stat`/`open`/`readFile` calls, `cliValidated` is the cached
probe flag, `cliOk` the probe result when it has to run, and
`geminiOutcome` the settlement of the main subprocess when one is
spawned.  Every externally visible action is recorded as an `Effect` in
program order.
-/

structure FileInfo where
  isFile : Bool
  size : Nat
  readable : Bool
  bytes : List Nat
  content : List Char
  deriving DecidableEq

structure GeminiSuccess where
  output : List Char
  warn : Option (List Char)
  deriving DecidableEq

structure Env where
  now : List Char
  workingDirectory : List Char
  cliValidated : Bool
  cliOk : Bool
  fs : List Char → Option FileInfo
  geminiOutcome : Except (List Char) GeminiSuccess

inductive Effect where
  | probeSpawn
  | statFile (p : List Char)
  | openRead (p : List Char)
  | readFile (p : List Char)
  | spawnGemini
  deriving DecidableEq

/-- `validateGeminiCLI` (source lines 134-155): immediate when cached,
otherwise one probe subprocess whose failure aborts the operation. -/
def validateGeminiCLI (env : Env) : Except (List Char) Unit × List Effect :=
  if env.cliValidated then (.ok (), [])
  else if env.cliOk then (.ok (), [.probeSpawn])
  else (.error "Gemini CLI not available or not working".data, [.probeSpawn])

/-- `validateFileAccess` (source lines 74-117): stat, regular-file and
size checks, readability, then the 512-byte binary gate.  Errors other
than the three pass-through messages are wrapped with
`File access error: `. -/
def validateFileAccess (env : Env) (p : List Char) :
    Except (List Char) FileInfo × List Effect :=
  match env.fs p with
  | none =>
      (.error ("File access error: ".data ++ "ENOENT: no such file or directory".data),
       [.statFile p])
  | some info =>
      if !info.isFile then (.error "Path is not a file".data, [.statFile p])
      else if info.size > maxFileSize then
        (.error ("File too large: ".data ++ natStr info.size ++
                 " bytes (max: ".data ++ natStr maxFileSize ++ ")".data),
         [.statFile p])
      else if !info.readable then
        (.error ("File access error: ".data ++ "EACCES: permission denied".data),
         [.statFile p])
      else if isBinary info.bytes then
        (.error "File appears to be binary, not a text-based source code file".data,
         [.statFile p, .openRead p])
      else (.ok info, [.statFile p, .openRead p])

/-- `executeGeminiCommand` as seen by the pipeline: the pre-spawn phase
(sanitize, empty check) runs first; only if it passes is the subprocess
spawned, and the environment supplies its settlement. -/
def executeGeminiCommand (env : Env) (prompt : List Char) :
    Except (List Char) GeminiSuccess × List Effect :=
  match execGeminiPreSpawn (.vStr prompt) with
  | .rejected m => (.error m, [])
  | .spawned _ => (env.geminiOutcome, [.spawnGemini])

/-- `languageMap` in `detectLanguage` (source lines 343-354). -/
def languageMap : List (List Char × List Char) :=
  [(".js".data, "JavaScript".data), (".ts".data, "TypeScript".data),
   (".py".data, "Python".data), (".java".data, "Java".data),
   (".cpp".data, "C++".data), (".c".data, "C".data), (".cs".data, "C#".data),
   (".php".data, "PHP".data), (".rb".data, "Ruby".data), (".go".data, "Go".data),
   (".rs".data, "Rust".data), (".kt".data, "Kotlin".data),
   (".swift".data, "Swift".data), (".pine".data, "Pine Script".data),
   (".pinescript".data, "Pine Script".data), (".sh".data, "Shell Script".data),
   (".bash".data, "Bash".data), (".ps1".data, "PowerShell".data),
   (".sql".data, "SQL".data), (".html".data, "HTML".data),
   (".css".data, "CSS".data), (".scss".data, "SCSS".data),
   (".sass".data, "Sass".data), (".vue".data, "Vue.js".data),
   (".jsx".data, "React JSX".data), (".tsx".data, "React TSX".data),
   (".dart".data, "Dart".data), (".r".data, "R".data),
   (".m".data, "MATLAB".data), (".scala".data, "Scala".data),
   (".clj".data, "Clojure".data), (".hs".data, "Haskell".data),
   (".ml".data, "OCaml".data), (".ex".data, "Elixir".data),
   (".erl".data, "Erlang".data), (".lua".data, "Lua".data),
   (".pl".data, "Perl".data), (".vim".data, "Vimscript".data)]

def languageLookup (filePath : List Char) : List Char :=
  let ext := toLowerL (extnameL filePath)
  match languageMap.find? (fun kv => kv.1 == ext) with
  | some kv => kv.2
  | none => "Unknown".data

/-- `detectLanguage` (source lines 337-357): a truthy provided language
is sanitized (bound 50, may throw); otherwise the extension map.  A
truthy non-string sanitizes to the empty string, as in the source. -/
def detectLanguage (filePath : List Char) (providedLanguage : JSVal) :
    Except (List Char) (List Char) :=
  match providedLanguage with
  | .vStr s => if s = [] then .ok (languageLookup filePath)
               else sanitizeInput (.vStr s) 50
  | .vOther => sanitizeInput .vOther 50
  | _ => .ok (languageLookup filePath)

/-- `getDisplayPath` (source lines 290-293). -/
def getDisplayPath (workingDirectory p : List Char) : List Char :=
  let relativePath := relativeL workingDirectory p
  if startsWithL "..".data relativePath then basenameL p else relativePath

inductive ContentItem where
  | text (t : List Char)
  | toolUse (name : List Char) (filePath oldS newS : List Char)
  deriving DecidableEq

structure ToolResponse where
  content : List ContentItem
  isError : Bool
  deriving DecidableEq

/-- `${result.error ? ... : ''}`: the advisory-warning suffix appended
to every success text. -/
def warnSuffix : Option (List Char) → List Char
  | some w => if w = [] then [] else "\n\n⚠️ **Warnings**: ".data ++ w
  | none => []

/-- `context || 'General code review'`. -/
def contextOrDefault (context : JSVal) : JSVal :=
  match context with
  | .vStr s => if s = [] then .vStr "General code review".data else .vStr s
  | .vOther => .vOther
  | _ => .vStr "General code review".data

/-- `language || 'unknown'` and the like, for the failure-path tags. -/
def jsValOr (v : JSVal) (d : List Char) : List Char :=
  match v with
  | .vStr s => if s = [] then d else s
  | _ => d

/-- The raw `filePath` argument as `handleOperationError` hands it to
the tracker (`filePath ? ... : 'unknown'`). -/
def jsPathOpt : JSVal → Option (List Char)
  | .vStr s => if s = [] then none else some s
  | _ => none

/-- Shared head of the four analysis operations (each repeats these
statements verbatim): CLI availability, path validation, file-access
checks, full read, language detection, display path. -/
structure HeadOk where
  validatedPath : List Char
  fileContent : List Char
  detectedLanguage : List Char
  displayPath : List Char
  deriving DecidableEq

def pipelineHead (env : Env) (filePath language : JSVal) :
    Except (List Char) HeadOk × List Effect :=
  match validateGeminiCLI env with
  | (.error m, ef1) => (.error m, ef1)
  | (.ok (), ef1) =>
    match validateFilePath env.workingDirectory filePath with
    | .error m => (.error m, ef1)
    | .ok validatedPath =>
      match validateFileAccess env validatedPath with
      | (.error m, ef2) => (.error m, ef1 ++ ef2)
      | (.ok info, ef2) =>
        let ef3 := ef1 ++ ef2 ++ [.readFile validatedPath]
        match detectLanguage validatedPath language with
        | .error m => (.error m, ef3)
        | .ok detectedLanguage =>
          (.ok ⟨validatedPath, info.content, detectedLanguage,
                getDisplayPath env.workingDirectory validatedPath⟩, ef3)

def fence : List Char := "```".data

/-- The review prompt template (source lines 470-497). -/
def mkReviewPrompt (displayPath detectedLanguage sanitizedContext focusAreas fileContent : List Char) : List Char :=
  "Perform a comprehensive code review:\n\n**File**: ".data ++ displayPath ++
  "\n**Language**: ".data ++ detectedLanguage ++
  "\n**Context**: ".data ++ sanitizedContext ++
  "\n**Focus Areas**: ".data ++ focusAreas ++
  "\n\n**Code to Review**:\n".data ++ fence ++ toLowerL detectedLanguage ++
  "\n".data ++ fileContent ++ "\n".data ++ fence ++
  "\n\n**Instructions**:\nYour primary goal is to provide a text-based review. However, if you find a specific, critical issue that can be fixed with a direct code replacement, you MAY provide ONE such suggestion. If you do, you MUST use the following EXACT format.\n\n--- OLD_CODE ---\n// The full, original code block to be replaced.\n--- END_OLD_CODE ---\n\n--- NEW_CODE ---\n// The full, new, improved code block.\n--- END_NEW_CODE ---\n\n**Review Guidelines**:\n1. **Issues Found**: List any problems with severity levels (Critical, High, Medium, Low).\n2. **Suggestions**: Provide specific, actionable improvements. If you provided a code replacement above, explain the rationale for it here.\n3. **Rating**: Give an overall code quality score (1-10).\n4. **Priority Actions**: List the top 3 things to fix first.".data

/-- The `try` block of `geminiCodeReview` up to (but excluding) its
success tracking: everything that can throw. -/
def reviewAttempt (env : Env) (filePath context : JSVal) (fa : List Char)
    (language : JSVal) :
    Except (List Char) (HeadOk × List ContentItem × ExtraData) × List Effect :=
  match pipelineHead env filePath language with
    | (.error m, effs) => (.error m, effs)
    | (.ok h, effs) =>
      match sanitizeInput (contextOrDefault context) 1000 with
      | .error m => (.error m, effs)
      | .ok sanitizedContext =>
        let reviewPrompt := mkReviewPrompt h.displayPath h.detectedLanguage
                              sanitizedContext fa h.fileContent
        match executeGeminiCommand env reviewPrompt with
        | (.error m, ef4) => (.error m, effs ++ ef4)
        | (.ok result, ef4) =>
          let header := "🧭 **Gemini Code Review - ".data ++ h.displayPath ++
                        " (".data ++ h.detectedLanguage ++ ")**\n\n".data
          match parseActionableSuggestion result.output with
          | some sug =>
            if trimWs sug.oldCode ≠ [] ∧ trimWs sug.newCode ≠ [] then
              (.ok (h, [.text (header ++ sug.explanation ++ warnSuffix result.warn),
                        .toolUse "replace".data h.validatedPath sug.oldCode sug.newCode],
                    { language := some h.detectedLanguage,
                      context := some sanitizedContext,
                      focusAreas := some fa, actionable := some true }),
               effs ++ ef4)
            else
              (.ok (h, [.text (header ++ result.output ++ warnSuffix result.warn)],
                    { language := some h.detectedLanguage,
                      context := some sanitizedContext,
                      focusAreas := some fa, actionable := some false }),
               effs ++ ef4)
          | none =>
              (.ok (h, [.text (header ++ result.output ++ warnSuffix result.warn)],
                    { language := some h.detectedLanguage,
                      context := some sanitizedContext,
                      focusAreas := some fa, actionable := some false }),
               effs ++ ef4)

/-- `geminiCodeReview` (source lines 458-552): run the attempt, then
track exactly once — success tracking inside the `try`, failure
tracking inside `handleOperationError` which rethrows the wrapped
error. -/
def geminiCodeReview (env : Env) (st : Session) (filePath context : JSVal)
    (focusAreas : Option (List Char)) (language : JSVal) :
    Except (List Char) ToolResponse × Session × List Effect :=
  let fa := focusAreas.getD "general".data
  match reviewAttempt env filePath context fa language with
  | (.ok (h, content, extra), effs) =>
      let (st', _) := trackOperationResult env.now env.workingDirectory st
        "code_review".data (some h.validatedPath) true none extra
      (.ok ⟨content, false⟩, st', effs)
  | (.error m, effs) =>
      let (st', _) := trackOperationResult env.now env.workingDirectory st
        "code_review".data (jsPathOpt filePath) false (some m)
        { language := some (jsValOr language "unknown".data),
          context := some (jsValOr context "none".data),
          focusAreas := some fa }
      (.error (underscoresToSpaces "code_review".data ++ " failed: ".data ++ m), st', effs)

/-- The analysis-type prompt heads (source lines 565-571). -/
def analysisPromptHead (detectedLanguage : List Char) : List Char → Option (List Char)
  | t =>
      if t = "explain".data then
        some ("Explain what this ".data ++ detectedLanguage ++
              " code does, how it works, and its purpose:".data)
      else if t = "optimize".data then
        some ("Analyze this ".data ++ detectedLanguage ++
              " code for optimization opportunities:".data)
      else if t = "debug".data then
        some ("Help debug this ".data ++ detectedLanguage ++
              " code by identifying potential issues:".data)
      else if t = "refactor".data then
        some ("Suggest refactoring improvements for this ".data ++
              detectedLanguage ++ " code:".data)
      else if t = "compare".data then
        some ("Analyze this ".data ++ detectedLanguage ++
              " code and suggest alternative approaches:".data)
      else none

/-- The analysis prompt (source lines 573-583);
`analysisPrompts[analysisType] || analysisPrompts.explain`. -/
def mkAnalysisPrompt (displayPath detectedLanguage analysisType fileContent : List Char) : List Char :=
  let head := (analysisPromptHead detectedLanguage analysisType).getD
    ("Explain what this ".data ++ detectedLanguage ++
     " code does, how it works, and its purpose:".data)
  head ++ "\n\n**File**: ".data ++ displayPath ++
  "\n**Language**: ".data ++ detectedLanguage ++
  "\n\n**Code**:\n".data ++ fence ++ toLowerL detectedLanguage ++
  "\n".data ++ fileContent ++ "\n".data ++ fence ++
  "\n\nProvide a detailed analysis focusing on the ".data ++ analysisType ++
  " aspect.".data

/-- The `try` block of `geminiAnalyzeCode` up to its success tracking. -/
def analyzeAttempt (env : Env) (filePath : JSVal) (at_ : List Char)
    (language : JSVal) :
    Except (List Char) (HeadOk × List ContentItem) × List Effect :=
  match pipelineHead env filePath language with
  | (.error m, effs) => (.error m, effs)
  | (.ok h, effs) =>
    let prompt := mkAnalysisPrompt h.displayPath h.detectedLanguage at_ h.fileContent
    match executeGeminiCommand env prompt with
    | (.error m, ef4) => (.error m, effs ++ ef4)
    | (.ok result, ef4) =>
        (.ok (h, [.text ("🔍 **Gemini Code Analysis (".data ++ at_ ++
                         ") - ".data ++ h.displayPath ++ " (".data ++
                         h.detectedLanguage ++ ")**\n\n".data ++ result.output ++
                         warnSuffix result.warn)]), effs ++ ef4)

/-- `geminiAnalyzeCode` (source lines 554-606). -/
def geminiAnalyzeCode (env : Env) (st : Session) (filePath : JSVal)
    (analysisType : Option (List Char)) (language : JSVal) :
    Except (List Char) ToolResponse × Session × List Effect :=
  let at_ := analysisType.getD "explain".data
  match analyzeAttempt env filePath at_ language with
  | (.ok (h, content), effs) =>
      let (st', _) := trackOperationResult env.now env.workingDirectory st
        "code_analysis".data (some h.validatedPath) true none
        { language := some h.detectedLanguage, analysisType := some at_ }
      (.ok ⟨content, false⟩, st', effs)
  | (.error m, effs) =>
      let (st', _) := trackOperationResult env.now env.workingDirectory st
        "code_analysis".data (jsPathOpt filePath) false (some m)
        { language := some (jsValOr language "unknown".data),
          analysisType := some at_ }
      (.error (underscoresToSpaces "code_analysis".data ++ " failed: ".data ++ m), st', effs)

/-- The improvement prompt (source lines 619-642). -/
def mkImprovementPrompt (displayPath detectedLanguage improvementGoals fileContent : List Char) : List Char :=
  "Suggest specific improvements for this ".data ++ detectedLanguage ++
  " code:\n\n**File**: ".data ++ displayPath ++
  "\n**Language**: ".data ++ detectedLanguage ++
  "\n**Improvement Goals**: ".data ++ improvementGoals ++
  "\n\n**Current Code**:\n".data ++ fence ++ toLowerL detectedLanguage ++
  "\n".data ++ fileContent ++ "\n".data ++ fence ++
  "\n\n**Instructions**:\nIf you find a section of code to improve, you MUST provide the complete, original code block to be replaced and the complete, new code block to replace it with. Use the following EXACT format. Do not add any other text or explanation inside the code blocks.\n\n--- OLD_CODE ---\n// The full, original code block to be replaced, including all original indentation and newlines.\n--- END_OLD_CODE ---\n\n--- NEW_CODE ---\n// The full, new, improved code block, including all necessary indentation and newlines.\n--- END_NEW_CODE ---\n\n**Rationale**:\nAfter the code blocks, provide a clear explanation of why the improvement is necessary and what it does. Focus on the specified goals: ".data ++
  improvementGoals ++ ".".data

/-- The `try` block of `geminiSuggestImprovements` up to its success
tracking. -/
def suggestAttempt (env : Env) (filePath : JSVal) (ig : List Char)
    (language : JSVal) :
    Except (List Char) (HeadOk × List ContentItem × ExtraData) × List Effect :=
  match pipelineHead env filePath language with
    | (.error m, effs) => (.error m, effs)
    | (.ok h, effs) =>
      let prompt := mkImprovementPrompt h.displayPath h.detectedLanguage ig h.fileContent
      match executeGeminiCommand env prompt with
      | (.error m, ef4) => (.error m, effs ++ ef4)
      | (.ok result, ef4) =>
        match parseActionableSuggestion result.output with
        | some sug =>
          if trimWs sug.oldCode ≠ [] ∧ trimWs sug.newCode ≠ [] then
            (.ok (h, [.text ("💡 **Gemini Improvement Suggestion - ".data ++
                             h.displayPath ++ " (".data ++ h.detectedLanguage ++
                             ")**\n\n".data ++ sug.explanation ++ warnSuffix result.warn),
                      .toolUse "replace".data h.validatedPath sug.oldCode sug.newCode],
                  { language := some h.detectedLanguage,
                    improvementGoals := some ig, actionable := some true }),
             effs ++ ef4)
          else
            (.ok (h, [.text ("💡 **Gemini Improvement Suggestions - ".data ++
                             h.displayPath ++ " (".data ++ h.detectedLanguage ++
                             ")**\n\n".data ++ result.output ++ warnSuffix result.warn)],
                  { language := some h.detectedLanguage,
                    improvementGoals := some ig, actionable := some false }),
             effs ++ ef4)
        | none =>
            (.ok (h, [.text ("💡 **Gemini Improvement Suggestions - ".data ++
                             h.displayPath ++ " (".data ++ h.detectedLanguage ++
                             ")**\n\n".data ++ result.output ++ warnSuffix result.warn)],
                  { language := some h.detectedLanguage,
                    improvementGoals := some ig, actionable := some false }),
             effs ++ ef4)

/-- `geminiSuggestImprovements` (source lines 608-694). -/
def geminiSuggestImprovements (env : Env) (st : Session) (filePath : JSVal)
    (improvementGoals : Option (List Char)) (language : JSVal) :
    Except (List Char) ToolResponse × Session × List Effect :=
  let ig := improvementGoals.getD "general".data
  match suggestAttempt env filePath ig language with
  | (.ok (h, content, extra), effs) =>
      let (st', _) := trackOperationResult env.now env.workingDirectory st
        "suggest_improvements".data (some h.validatedPath) true none extra
      (.ok ⟨content, false⟩, st', effs)
  | (.error m, effs) =>
      let (st', _) := trackOperationResult env.now env.workingDirectory st
        "suggest_improvements".data (jsPathOpt filePath) false (some m)
        { language := some (jsValOr language "unknown".data),
          improvementGoals := some ig }
      (.error (underscoresToSpaces "suggest_improvements".data ++ " failed: ".data ++ m),
       st', effs)

/-- The architecture-validation prompt (source lines 707-730). -/
def mkArchPrompt (displayPath detectedLanguage validationFocus fileContent : List Char) : List Char :=
  "Validate this ".data ++ detectedLanguage ++
  " code architecture and design:\n\n**File**: ".data ++ displayPath ++
  "\n**Language**: ".data ++ detectedLanguage ++
  "\n**Validation Focus**: ".data ++ validationFocus ++
  "\n\n**Code**:\n".data ++ fence ++ toLowerL detectedLanguage ++
  "\n".data ++ fileContent ++ "\n".data ++ fence ++
  "\n\n**Validation Checklist**:\n1. **Architecture**: Is the overall structure sound and scalable?\n2. **Design Patterns**: Are appropriate patterns used correctly?\n3. **Separation of Concerns**: Are responsibilities properly separated?\n4. **SOLID Principles**: Does the code follow SOLID principles?\n5. **Modularity**: Is the code properly modularized and reusable?\n6. **Error Handling**: Is error handling comprehensive and appropriate?\n7. **Documentation**: Is the code well-documented and self-explanatory?\n8. **Testability**: How testable is this code?\n\nFocus particularly on: ".data ++
  validationFocus ++
  "\n\nProvide a comprehensive architectural assessment with recommendations.".data

/-- The `try` block of `geminiValidateArchitecture` up to its success
tracking. -/
def archAttempt (env : Env) (filePath : JSVal) (vf : List Char)
    (language : JSVal) :
    Except (List Char) (HeadOk × List ContentItem) × List Effect :=
  match pipelineHead env filePath language with
  | (.error m, effs) => (.error m, effs)
  | (.ok h, effs) =>
    let prompt := mkArchPrompt h.displayPath h.detectedLanguage vf h.fileContent
    match executeGeminiCommand env prompt with
    | (.error m, ef4) => (.error m, effs ++ ef4)
    | (.ok result, ef4) =>
        (.ok (h, [.text ("🏗️ **Gemini Architecture Validation - ".data ++
                         h.displayPath ++ " (".data ++ h.detectedLanguage ++
                         ")**\n\n".data ++ result.output ++ warnSuffix result.warn)]),
         effs ++ ef4)

/-- `geminiValidateArchitecture` (source lines 696-753). -/
def geminiValidateArchitecture (env : Env) (st : Session) (filePath : JSVal)
    (validationFocus : Option (List Char)) (language : JSVal) :
    Except (List Char) ToolResponse × Session × List Effect :=
  let vf := validationFocus.getD "architecture".data
  match archAttempt env filePath vf language with
  | (.ok (h, content), effs) =>
      let (st', _) := trackOperationResult env.now env.workingDirectory st
        "validate_architecture".data (some h.validatedPath) true none
        { language := some h.detectedLanguage, validationFocus := some vf }
      (.ok ⟨content, false⟩, st', effs)
  | (.error m, effs) =>
      let (st', _) := trackOperationResult env.now env.workingDirectory st
        "validate_architecture".data (jsPathOpt filePath) false (some m)
        { language := some (jsValOr language "unknown".data),
          validationFocus := some vf }
      (.error (underscoresToSpaces "validate_architecture".data ++ " failed: ".data ++ m),
       st', effs)

/-! ## Transport boundary (source lines 423-455)

The `CallToolRequestSchema` handler: a thrown operation error becomes a
well-formed response with `isError: true`.
-/

inductive ToolName where
  | review
  | analyze
  | suggest
  | validateArch
  deriving DecidableEq

def toolNameStr : ToolName → List Char
  | .review => "gemini_code_review".data
  | .analyze => "gemini_analyze_code".data
  | .suggest => "gemini_suggest_improvements".data
  | .validateArch => "gemini_validate_architecture".data

structure CallArgs where
  filePath : JSVal := .vUndefined
  context : JSVal := .vUndefined
  focusAreas : Option (List Char) := none
  language : JSVal := .vUndefined
  analysisType : Option (List Char) := none
  improvementGoals : Option (List Char) := none
  validationFocus : Option (List Char) := none

def dispatchTool (env : Env) (st : Session) (name : ToolName) (args : CallArgs) :
    Except (List Char) ToolResponse × Session × List Effect :=
  match name with
  | .review =>
      geminiCodeReview env st args.filePath args.context args.focusAreas args.language
  | .analyze =>
      geminiAnalyzeCode env st args.filePath args.analysisType args.language
  | .suggest =>
      geminiSuggestImprovements env st args.filePath args.improvementGoals args.language
  | .validateArch =>
      geminiValidateArchitecture env st args.filePath args.validationFocus args.language

/-- The transport handler: catch a thrown operation error and answer
with an error-flagged text response. -/
def callTool (env : Env) (st : Session) (name : ToolName) (args : CallArgs) :
    ToolResponse × Session × List Effect :=
  match dispatchTool env st name args with
  | (.ok resp, st', effs) => (resp, st', effs)
  | (.error m, st', effs) =>
      (⟨[.text ("❌ **Error in ".data ++ toolNameStr name ++ "**: ".data ++ m ++
                "\n\nPlease check your input parameters and try again.".data)], true⟩,
       st', effs)

/-! ## Helper lemmas -/

lemma filter_zero_le_nonPrint (l : List Nat) :
    (l.filter (fun b => b == 0)).length ≤ (l.filter nonPrintB).length := by
  induction l with
  | nil => simp
  | cons a t ih =>
      simp only [List.filter_cons]
      by_cases h0 : a = 0
      · subst h0
        simp only [nonPrintB]
        norm_num
        omega
      · have hb : (a == 0) = false := by simp [h0]
        rw [hb]
        cases hnp : nonPrintB a <;> simp <;> omega

lemma zero_mem_iff_filter (l : List Nat) :
    0 ∈ l ↔ 0 < (l.filter (fun b => b == 0)).length := by
  induction l with
  | nil => simp
  | cons a t ih =>
      simp only [List.filter_cons, List.mem_cons]
      by_cases h0 : a = 0
      · subst h0; simp
      · have hb : (a == 0) = false := by simp [h0]
        rw [hb]
        simp only [ih]
        constructor
        · rintro (h | h)
          · exact absurd h.symm h0
          · exact h
        · exact Or.inr

/-! ## Claim theorems -/

/-- C6: the binary-content verdict is a function of at most the first
512 bytes; it is binary exactly when the sample has a zero byte or the
non-printable count exceeds 30 percent of the bytes sampled; any zero
byte forces binary, and a sample with zero non-printable bytes is
classified text. -/
theorem c6_binary_gate_verdict :
    (∀ f g : List Nat, f.take 512 = g.take 512 → isBinary f = isBinary g)
    ∧ (∀ f : List Nat, isBinary f = true ↔
        (0 ∈ f.take 512 ∨
         10 * ((f.take 512).filter nonPrintB).length > 3 * (f.take 512).length))
    ∧ (∀ f : List Nat, 0 ∈ f.take 512 → isBinary f = true)
    ∧ (∀ f : List Nat, ((f.take 512).filter nonPrintB).length = 0 →
        isBinary f = false) := by
  have hiff : ∀ f : List Nat, isBinary f = true ↔
      (0 ∈ f.take 512 ∨
       10 * ((f.take 512).filter nonPrintB).length > 3 * (f.take 512).length) := by
    intro f
    unfold isBinary isBinarySample
    simp only [Bool.or_eq_true, decide_eq_true_eq, gt_iff_lt]
    constructor
    · rintro (h | h)
      · exact Or.inl ((zero_mem_iff_filter _).mpr h)
      · exact Or.inr h
    · rintro (h | h)
      · exact Or.inl ((zero_mem_iff_filter _).mp h)
      · exact Or.inr h
  refine ⟨?_, hiff, ?_, ?_⟩
  · intro f g h
    unfold isBinary
    rw [h]
  · intro f h
    exact (hiff f).mpr (Or.inl h)
  · intro f h
    cases hb : isBinary f with
    | false => rfl
    | true =>
        rcases (hiff f).mp hb with hz | hc
        · have := (zero_mem_iff_filter (f.take 512)).mp hz
          have hle := filter_zero_le_nonPrint (f.take 512)
          omega
        · omega

/-- C6 witness: the conditional parts of the claim hold at concrete
samples. -/
theorem c6_binary_gate_verdict_witness :
    ([0, 65].take 512 = [0, 65].take 512 ∧ isBinary [0, 65] = isBinary [0, 65])
    ∧ (0 ∈ ([0, 65] : List Nat).take 512 ∧ isBinary [0, 65] = true)
    ∧ ((([65, 66, 67] : List Nat).take 512).filter nonPrintB = [] ∧
        isBinary [65, 66, 67] = false) :=
  ⟨⟨rfl, c6_binary_gate_verdict.1 [0, 65] [0, 65] rfl⟩,
   ⟨by decide, c6_binary_gate_verdict.2.2.1 [0, 65] (by decide)⟩,
   ⟨by decide, c6_binary_gate_verdict.2.2.2 [65, 66, 67] (by decide)⟩⟩

/-- C10: null, undefined, empty, and non-string inputs sanitize to the
empty string without raising; the sanitizer raises only when a string
input exceeds the length ceiling; and a prompt that sanitizes to the
empty string makes executeGeminiCommand reject with the
empty-or-invalid-prompt error before any subprocess is spawned. -/
theorem c10_sanitize_nullish :
    (∀ (v : JSVal) (m : Nat),
      (v = .vNull ∨ v = .vUndefined ∨ v = .vStr [] ∨ v = .vOther) →
      sanitizeInput v m = .ok [])
    ∧ (∀ (v : JSVal) (m : Nat) (e : List Char),
        sanitizeInput v m = .error e → ∃ s, v = .vStr s ∧ s.length > m)
    ∧ (∀ p : JSVal, sanitizeInput p maxPromptLength = .ok [] →
        execGeminiPreSpawn p = .rejected emptyPromptMsg) := by
  refine ⟨?_, ?_, ?_⟩
  · rintro v m (rfl | rfl | rfl | rfl) <;> rfl
  · intro v m e h
    match v with
    | .vNull | .vUndefined | .vOther => simp [sanitizeInput] at h
    | .vStr s =>
        refine ⟨s, rfl, ?_⟩
        by_cases hnil : s = []
        · subst hnil; simp [sanitizeInput] at h
        · by_cases hlen : s.length > m
          · exact hlen
          · simp [sanitizeInput, hnil, hlen] at h
  · intro p h
    unfold execGeminiPreSpawn
    rw [h]

/-- C10 witness: a one-control-character prompt sanitizes to empty and
is rejected pre-spawn; an over-length string raises. -/
theorem c10_sanitize_nullish_witness :
    (sanitizeInput .vNull 10 = .ok [])
    ∧ (∃ s, JSVal.vStr ['a', 'b'] = .vStr s ∧ s.length > 1)
    ∧ (sanitizeInput (.vStr [Char.ofNat 1]) maxPromptLength = .ok [] ∧
       execGeminiPreSpawn (.vStr [Char.ofNat 1]) = .rejected emptyPromptMsg) :=
  ⟨c10_sanitize_nullish.1 .vNull 10 (Or.inl rfl),
   c10_sanitize_nullish.2.1 (.vStr ['a', 'b']) 1
     (("Input too long: ".data) ++ natStr 2 ++ " characters (max: ".data ++ natStr 1 ++ ")".data)
     (by rfl),
   by rfl,
   c10_sanitize_nullish.2.2 (.vStr [Char.ofNat 1]) (by rfl)⟩

/-- C7: a close event reaching an unsettled invocation resolves to
success with trimmed stdout and the trimmed non-empty stderr as warning
(null otherwise) when the exit code is zero, and to a failure carrying
the exit code and the stderr content when it is not. -/
theorem c7_close_outcomes (so se : List Char) (code : Option Int) (tm : Nat) :
    (code = some 0 →
      (step tm ⟨so, se, false, false, []⟩ (.closed code)).resolutions =
        [.success (trimWs so)
           (if trimWs se = [] then none else some (trimWs se))
           (decide ((trimWs so).length > 0))])
    ∧ (code ≠ some 0 →
      (step tm ⟨so, se, false, false, []⟩ (.closed code)).resolutions =
        [.exitFailure code (if se = [] then "No error message".data else se)]) := by
  constructor
  · intro h
    subst h
    simp [step]
  · intro h
    simp [step, h]

/-- C7 witness: both exit branches at concrete data. -/
theorem c7_close_outcomes_witness :
    ((some 0 : Option Int) = some 0 ∧
      (step 60000 ⟨" ok ".data, [], false, false, []⟩ (.closed (some 0))).resolutions =
        [.success (trimWs " ok ".data)
           (if trimWs ([] : List Char) = [] then none else some (trimWs []))
           (decide ((trimWs " ok ".data).length > 0))])
    ∧ ((some 1 : Option Int) ≠ some 0 ∧
      (step 60000 ⟨[], "boom".data, false, false, []⟩ (.closed (some 1))).resolutions =
        [.exitFailure (some 1) (if "boom".data = ([] : List Char)
                                then "No error message".data else "boom".data)]) :=
  ⟨⟨rfl, (c7_close_outcomes " ok ".data [] (some 0) 60000).1 rfl⟩,
   ⟨by decide, (c7_close_outcomes [] "boom".data (some 1) 60000).2 (by decide)⟩⟩

/-- C1: the validator accepts a relative input resolving to a sibling
directory of the root (plain prefix comparison), and accepts absolute
inputs with no containment check at all, while the spec boundary rule
rejects both resolved paths. -/
theorem c1_path_validator_accepts_sibling_escape :
    (validateFilePath "/app/root".data (.vStr "../root-evil/evil.js".data) =
       .ok "/app/root-evil/evil.js".data
     ∧ specRootBoundary "/app/root".data "/app/root-evil/evil.js".data = false)
    ∧ (validateFilePath "/app/root".data (.vStr "/etc/shadow.js".data) =
         .ok "/etc/shadow.js".data
       ∧ specRootBoundary "/app/root".data "/etc/shadow.js".data = false) :=
  ⟨⟨by rfl, by decide⟩, ⟨by rfl, by decide⟩⟩

/-! ## Event-machine lemmas for the subprocess runner -/

/-- Number of settled flags: the code resolves exactly when it sets one
of `processFinished` (close, error, overflow) or `timeoutTriggered`
(timer), so the resolution count tracks this sum. -/
def flagCount (st : RunState) : Nat :=
  (if st.processFinished then 1 else 0) + (if st.timeoutTriggered then 1 else 0)

/-- Explicit forms of `step` per guard outcome, used to drive the case
analyses below. -/
lemma step_timeout_skip (tm : Nat) (st : RunState) (hpf : st.processFinished = true) :
    step tm st .timeoutFire = st := by
  simp [step, hpf]

lemma step_timeout_fire (tm : Nat) (st : RunState) (hpf : st.processFinished = false) :
    step tm st .timeoutFire =
      { st with timeoutTriggered := true,
                resolutions := st.resolutions ++ [.timeout tm] } := by
  simp [step, hpf]

lemma step_stdout_overflow (tm : Nat) (st : RunState) (d : List Char)
    (hov : (st.stdout ++ d).length > maxFileSize * 2)
    (hpf : st.processFinished = false) (htt : st.timeoutTriggered = false) :
    step tm st (.stdoutData d) =
      { st with stdout := st.stdout ++ d, processFinished := true,
                resolutions := st.resolutions ++ [.outputTooLarge] } := by
  have hov' : maxFileSize * 2 < st.stdout.length + d.length := by
    simpa [List.length_append] using hov
  simp [step, hov', hpf, htt]

lemma step_stdout_keep (tm : Nat) (st : RunState) (d : List Char)
    (h : (st.stdout ++ d).length > maxFileSize * 2 →
         st.processFinished = true ∨ st.timeoutTriggered = true) :
    step tm st (.stdoutData d) = { st with stdout := st.stdout ++ d } := by
  by_cases hov : (st.stdout ++ d).length > maxFileSize * 2
  · have hov' : maxFileSize * 2 < st.stdout.length + d.length := by
      simpa [List.length_append] using hov
    rcases h hov with hf | hf <;> simp [step, hov', hf]
  · have hov' : ¬maxFileSize * 2 < st.stdout.length + d.length := by
      simpa [List.length_append] using hov
    simp [step, hov']

lemma step_closed_skip (tm : Nat) (st : RunState) (code : Option Int)
    (hset : (st.processFinished || st.timeoutTriggered) = true) :
    step tm st (.closed code) = st := by
  simp only [step, if_pos hset]

lemma step_closed_ok (tm : Nat) (st : RunState)
    (hpf : st.processFinished = false) (htt : st.timeoutTriggered = false) :
    step tm st (.closed (some 0)) =
      { st with processFinished := true,
                resolutions := st.resolutions ++
                  [.success (trimWs st.stdout)
                     (if trimWs st.stderr = [] then none else some (trimWs st.stderr))
                     (decide ((trimWs st.stdout).length > 0))] } := by
  simp [step, hpf, htt]

lemma step_closed_fail (tm : Nat) (st : RunState) (code : Option Int)
    (hpf : st.processFinished = false) (htt : st.timeoutTriggered = false)
    (hc : code ≠ some 0) :
    step tm st (.closed code) =
      { st with processFinished := true,
                resolutions := st.resolutions ++
                  [.exitFailure code
                     (if st.stderr = [] then "No error message".data else st.stderr)] } := by
  simp [step, hpf, htt, hc]

lemma step_errored_skip (tm : Nat) (st : RunState) (m : List Char)
    (hset : (st.processFinished || st.timeoutTriggered) = true) :
    step tm st (.errored m) = st := by
  simp only [step, if_pos hset]

lemma step_errored_fire (tm : Nat) (st : RunState) (m : List Char)
    (hpf : st.processFinished = false) (htt : st.timeoutTriggered = false) :
    step tm st (.errored m) =
      { st with processFinished := true,
                resolutions := st.resolutions ++ [.spawnError m] } := by
  simp [step, hpf, htt]

lemma step_preserves_inv (tm : Nat) (st : RunState) (e : Event)
    (hlen : st.resolutions.length = flagCount st)
    (hnb : ¬(st.processFinished = true ∧ st.timeoutTriggered = true))
    (hbud : (if st.timeoutTriggered then 1 else 0) +
            (if e = .timeoutFire then 1 else 0) ≤ 1) :
    (step tm st e).resolutions.length = flagCount (step tm st e)
    ∧ ¬((step tm st e).processFinished = true ∧
        (step tm st e).timeoutTriggered = true) := by
  cases e with
  | timeoutFire =>
      have htt : st.timeoutTriggered = false := by
        cases h : st.timeoutTriggered
        · rfl
        · rw [h] at hbud; simp at hbud
      cases hpf : st.processFinished with
      | true =>
          rw [step_timeout_skip tm st hpf]
          exact ⟨hlen, hnb⟩
      | false =>
          rw [step_timeout_fire tm st hpf]
          refine ⟨?_, ?_⟩
          · simp [flagCount, hpf, htt, hlen, List.length_append]
          · simp [hpf]
  | stdoutData d =>
      by_cases hov : (st.stdout ++ d).length > maxFileSize * 2
      · by_cases hfree : st.processFinished = false ∧ st.timeoutTriggered = false
        · rw [step_stdout_overflow tm st d hov hfree.1 hfree.2]
          refine ⟨?_, ?_⟩
          · simp [flagCount, hfree.1, hfree.2, hlen, List.length_append]
          · simp [hfree.2]
        · have hor : st.processFinished = true ∨ st.timeoutTriggered = true := by
            cases h1 : st.processFinished
            · cases h2 : st.timeoutTriggered
              · exact absurd ⟨h1, h2⟩ hfree
              · exact Or.inr rfl
            · exact Or.inl rfl
          rw [step_stdout_keep tm st d (fun _ => hor)]
          exact ⟨hlen, hnb⟩
      · rw [step_stdout_keep tm st d (fun h => absurd h hov)]
        exact ⟨hlen, hnb⟩
  | stderrData d => exact ⟨hlen, hnb⟩
  | closed code =>
      by_cases hset : (st.processFinished || st.timeoutTriggered) = true
      · rw [step_closed_skip tm st code hset]
        exact ⟨hlen, hnb⟩
      · have hpf : st.processFinished = false := by
          cases h : st.processFinished
          · rfl
          · rw [h] at hset; simp at hset
        have htt : st.timeoutTriggered = false := by
          cases h : st.timeoutTriggered
          · rfl
          · rw [h] at hset; simp at hset
        by_cases hc : code = some 0
        · subst hc
          rw [step_closed_ok tm st hpf htt]
          refine ⟨?_, ?_⟩
          · simp [flagCount, hpf, htt, hlen, List.length_append]
          · simp [htt]
        · rw [step_closed_fail tm st code hpf htt hc]
          refine ⟨?_, ?_⟩
          · simp [flagCount, hpf, htt, hlen, List.length_append]
          · simp [htt]
  | errored m =>
      by_cases hset : (st.processFinished || st.timeoutTriggered) = true
      · rw [step_errored_skip tm st m hset]
        exact ⟨hlen, hnb⟩
      · have hpf : st.processFinished = false := by
          cases h : st.processFinished
          · rfl
          · rw [h] at hset; simp at hset
        have htt : st.timeoutTriggered = false := by
          cases h : st.timeoutTriggered
          · rfl
          · rw [h] at hset; simp at hset
        rw [step_errored_fire tm st m hpf htt]
        refine ⟨?_, ?_⟩
        · simp [flagCount, hpf, htt, hlen, List.length_append]
        · simp [htt]

lemma step_tt_le (tm : Nat) (st : RunState) (e : Event) :
    (if (step tm st e).timeoutTriggered then 1 else 0) ≤
    (if st.timeoutTriggered then 1 else 0) +
    (if e = .timeoutFire then 1 else 0) := by
  cases e with
  | timeoutFire =>
      cases hpf : st.processFinished
      · rw [step_timeout_fire tm st hpf]
        simp
      · rw [step_timeout_skip tm st hpf]
        omega
  | stdoutData d =>
      by_cases hov : (st.stdout ++ d).length > maxFileSize * 2
      · by_cases hfree : st.processFinished = false ∧ st.timeoutTriggered = false
        · rw [step_stdout_overflow tm st d hov hfree.1 hfree.2]
          simp [hfree.2]
        · by_cases hpf : st.processFinished = true
          · rw [step_stdout_keep tm st d (fun _ => Or.inl hpf)]
            simp
          · have htt : st.timeoutTriggered = true := by
              cases h : st.timeoutTriggered
              · exact absurd ⟨by cases h2 : st.processFinished <;> simp_all, h⟩ hfree
              · rfl
            rw [step_stdout_keep tm st d (fun _ => Or.inr htt)]
            simp
      · rw [step_stdout_keep tm st d (fun h => absurd h hov)]
        simp
  | stderrData d => simp [step]
  | closed code =>
      by_cases hset : (st.processFinished || st.timeoutTriggered) = true
      · rw [step_closed_skip tm st code hset]
        simp
      · have hpf : st.processFinished = false := by
          cases h : st.processFinished
          · rfl
          · rw [h] at hset; simp at hset
        have htt : st.timeoutTriggered = false := by
          cases h : st.timeoutTriggered
          · rfl
          · rw [h] at hset; simp at hset
        by_cases hc : code = some 0
        · subst hc
          rw [step_closed_ok tm st hpf htt]
          simp [htt]
        · rw [step_closed_fail tm st code hpf htt hc]
          simp [htt]
  | errored m =>
      by_cases hset : (st.processFinished || st.timeoutTriggered) = true
      · rw [step_errored_skip tm st m hset]
        simp
      · have hpf : st.processFinished = false := by
          cases h : st.processFinished
          · rfl
          · rw [h] at hset; simp at hset
        have htt : st.timeoutTriggered = false := by
          cases h : st.timeoutTriggered
          · rfl
          · rw [h] at hset; simp at hset
        rw [step_errored_fire tm st m hpf htt]
        simp [htt]

lemma foldl_preserves_inv (tm : Nat) (events : List Event) :
    ∀ st : RunState,
      st.resolutions.length = flagCount st →
      ¬(st.processFinished = true ∧ st.timeoutTriggered = true) →
      (if st.timeoutTriggered then 1 else 0) + countTimeouts events ≤ 1 →
      (events.foldl (step tm) st).resolutions.length =
        flagCount (events.foldl (step tm) st)
      ∧ ¬((events.foldl (step tm) st).processFinished = true ∧
          (events.foldl (step tm) st).timeoutTriggered = true) := by
  induction events with
  | nil => intro st h1 h2 _; exact ⟨h1, h2⟩
  | cons e t ih =>
      intro st h1 h2 h3
      have hct : countTimeouts (e :: t) =
          (if e = .timeoutFire then 1 else 0) + countTimeouts t := by
        unfold countTimeouts
        rw [List.countP_cons]
        by_cases he : e = .timeoutFire
        · subst he
          simp
          omega
        · have hb : (e == Event.timeoutFire) = false := by
            exact beq_eq_false_iff_ne.mpr he
          rw [hb, if_neg he]
          simp
      have hbud : (if st.timeoutTriggered then 1 else 0) +
          (if e = .timeoutFire then 1 else 0) ≤ 1 := by
        rw [hct] at h3; omega
      obtain ⟨h1', h2'⟩ := step_preserves_inv tm st e h1 h2 hbud
      have h3' : (if (step tm st e).timeoutTriggered then 1 else 0) +
          countTimeouts t ≤ 1 := by
        have := step_tt_le tm st e
        rw [hct] at h3
        omega
      exact ih (step tm st e) h1' h2' h3'

lemma step_settled_mono (tm : Nat) (st : RunState) (e : Event)
    (h : (st.processFinished || st.timeoutTriggered) = true) :
    ((step tm st e).processFinished || (step tm st e).timeoutTriggered) = true := by
  cases e with
  | timeoutFire =>
      cases hpf : st.processFinished
      · rw [step_timeout_fire tm st hpf]
        simp
      · rw [step_timeout_skip tm st hpf]
        exact h
  | stdoutData d =>
      by_cases hov : (st.stdout ++ d).length > maxFileSize * 2
      · by_cases hfree : st.processFinished = false ∧ st.timeoutTriggered = false
        · rw [hfree.1, hfree.2] at h
          simp at h
        · have hor : st.processFinished = true ∨ st.timeoutTriggered = true := by
            cases h1 : st.processFinished
            · cases h2 : st.timeoutTriggered
              · exact absurd ⟨h1, h2⟩ hfree
              · exact Or.inr rfl
            · exact Or.inl rfl
          rw [step_stdout_keep tm st d (fun _ => hor)]
          exact h
      · rw [step_stdout_keep tm st d (fun hx => absurd hx hov)]
        exact h
  | stderrData d => exact h
  | closed code =>
      rw [step_closed_skip tm st code h]
      exact h
  | errored m =>
      rw [step_errored_skip tm st m h]
      exact h

lemma step_terminal_settles (tm : Nat) (st : RunState) (e : Event)
    (h : isTerminalEvent e = true) :
    ((step tm st e).processFinished || (step tm st e).timeoutTriggered) = true := by
  cases e with
  | timeoutFire =>
      cases hpf : st.processFinished
      · rw [step_timeout_fire tm st hpf]
        simp
      · rw [step_timeout_skip tm st hpf]
        rw [hpf]
        simp
  | stdoutData d => simp [isTerminalEvent] at h
  | stderrData d => simp [isTerminalEvent] at h
  | closed code =>
      by_cases hset : (st.processFinished || st.timeoutTriggered) = true
      · rw [step_closed_skip tm st code hset]
        exact hset
      · have hpf : st.processFinished = false := by
          cases hh : st.processFinished
          · rfl
          · rw [hh] at hset; simp at hset
        have htt : st.timeoutTriggered = false := by
          cases hh : st.timeoutTriggered
          · rfl
          · rw [hh] at hset; simp at hset
        by_cases hc : code = some 0
        · subst hc
          rw [step_closed_ok tm st hpf htt]
          simp
        · rw [step_closed_fail tm st code hpf htt hc]
          simp
  | errored m =>
      by_cases hset : (st.processFinished || st.timeoutTriggered) = true
      · rw [step_errored_skip tm st m hset]
        exact hset
      · have hpf : st.processFinished = false := by
          cases hh : st.processFinished
          · rfl
          · rw [hh] at hset; simp at hset
        have htt : st.timeoutTriggered = false := by
          cases hh : st.timeoutTriggered
          · rfl
          · rw [hh] at hset; simp at hset
        rw [step_errored_fire tm st m hpf htt]
        simp

lemma foldl_settled (tm : Nat) (l : List Event) :
    ∀ st : RunState, (st.processFinished || st.timeoutTriggered) = true →
    ((l.foldl (step tm) st).processFinished ||
     (l.foldl (step tm) st).timeoutTriggered) = true := by
  induction l with
  | nil => intro st h; exact h
  | cons e t ih => intro st h; exact ih (step tm st e) (step_settled_mono tm st e h)

lemma length_le_one_mem_eq {α : Type} {l : List α} {a b : α}
    (hl : l.length ≤ 1) (ha : a ∈ l) (hb : b ∈ l) : a = b := by
  match l, ha with
  | [x], ha =>
      have ha' : a = x := by simpa using ha
      have hb' : b = x := by simpa using hb
      rw [ha', hb']
  | x :: y :: t, _ => simp at hl

/-- C3: with a one-shot timer (at most one timeout firing per trace),
every event trace settles the invocation at most once; a trace
containing a timer firing, a close, or a spawn error settles it exactly
once; and no invocation ever records both a timeout and a success
outcome. -/
theorem c3_subprocess_single_resolution (tm : Nat) (events : List Event)
    (h : countTimeouts events ≤ 1) :
    (runEvents tm events).resolutions.length ≤ 1
    ∧ ((∃ e ∈ events, isTerminalEvent e = true) →
        (runEvents tm events).resolutions.length = 1)
    ∧ (∀ (ms : Nat) (o : List Char) (w : Option (List Char)) (b : Bool),
        Outcome.timeout ms ∈ (runEvents tm events).resolutions →
        Outcome.success o w b ∈ (runEvents tm events).resolutions → False) := by
  have hinv := foldl_preserves_inv tm events initState (by rfl) (by simp [initState])
    (by simpa [initState] using h)
  have hle : (runEvents tm events).resolutions.length ≤ 1 := by
    have h1 := hinv.1
    have h2 := hinv.2
    unfold runEvents
    rw [h1]
    unfold flagCount
    rcases hpf : (events.foldl (step tm) initState).processFinished <;>
      rcases htt : (events.foldl (step tm) initState).timeoutTriggered <;>
      simp_all
  refine ⟨hle, ?_, ?_⟩
  · rintro ⟨e, he, hterm⟩
    obtain ⟨l1, l2, rfl⟩ := List.append_of_mem he
    have hsettled : ((runEvents tm (l1 ++ e :: l2)).processFinished ||
        (runEvents tm (l1 ++ e :: l2)).timeoutTriggered) = true := by
      unfold runEvents
      rw [List.foldl_append, List.foldl_cons]
      exact foldl_settled tm l2 _
        (step_terminal_settles tm (l1.foldl (step tm) initState) e hterm)
    have h1 := hinv.1
    have h2 := hinv.2
    unfold runEvents at hle ⊢
    rw [h1]
    unfold flagCount
    unfold runEvents at hsettled
    rcases hpf : ((l1 ++ e :: l2).foldl (step tm) initState).processFinished <;>
      rcases htt : ((l1 ++ e :: l2).foldl (step tm) initState).timeoutTriggered <;>
      simp_all
  · intro ms o w b hto hsu
    have := length_le_one_mem_eq hle hto hsu
    simp at this

/-- C3 witness: a race of timer firing before the close event produces
exactly the timeout resolution and no success. -/
theorem c3_subprocess_single_resolution_witness :
    countTimeouts [.stdoutData "hi".data, .timeoutFire, .closed (some 0)] ≤ 1
    ∧ ((runEvents 60000 [.stdoutData "hi".data, .timeoutFire, .closed (some 0)]).resolutions.length ≤ 1
       ∧ ((∃ e ∈ [Event.stdoutData "hi".data, .timeoutFire, .closed (some 0)],
            isTerminalEvent e = true) →
          (runEvents 60000 [.stdoutData "hi".data, .timeoutFire, .closed (some 0)]).resolutions.length = 1)
       ∧ (∀ (ms : Nat) (o : List Char) (w : Option (List Char)) (b : Bool),
           Outcome.timeout ms ∈ (runEvents 60000 [.stdoutData "hi".data, .timeoutFire, .closed (some 0)]).resolutions →
           Outcome.success o w b ∈ (runEvents 60000 [.stdoutData "hi".data, .timeoutFire, .closed (some 0)]).resolutions → False)) :=
  ⟨by decide,
   c3_subprocess_single_resolution 60000
     [.stdoutData "hi".data, .timeoutFire, .closed (some 0)] (by decide)⟩

/-! ## Substring-search lemmas for the suggestion extractor -/

lemma findSub_some (n : List Char) : ∀ (s : List Char) (i : Nat),
    findSub n s = some i →
    startsWithL n (List.drop i s) = true ∧ i ≤ s.length := by
  intro s
  induction s with
  | nil =>
      intro i h
      unfold findSub at h
      by_cases hs : startsWithL n [] = true
      · rw [if_pos hs] at h
        injection h with h'
        subst h'
        exact ⟨hs, Nat.le_refl 0⟩
      · rw [if_neg hs] at h
        cases h
  | cons c t ih =>
      intro i h
      unfold findSub at h
      by_cases hs : startsWithL n (c :: t) = true
      · rw [if_pos hs] at h
        injection h with h'
        subst h'
        exact ⟨hs, Nat.zero_le _⟩
      · rw [if_neg hs] at h
        cases hf : findSub n t with
        | none => rw [hf] at h; cases h
        | some j =>
            rw [hf] at h
            simp only [Option.map_some'] at h
            injection h with h'
            subst h'
            obtain ⟨h1, h2⟩ := ih j hf
            refine ⟨?_, by simp; omega⟩
            rw [List.drop_succ_cons]
            exact h1

lemma findSub_exists (n : List Char) : ∀ (s : List Char) (i : Nat),
    startsWithL n (List.drop i s) = true →
    ∃ j, findSub n s = some j ∧ j ≤ i := by
  intro s
  induction s with
  | nil =>
      intro i h
      rw [List.drop_nil] at h
      exact ⟨0, by unfold findSub; rw [if_pos h], Nat.zero_le i⟩
  | cons c t ih =>
      intro i h
      by_cases hs : startsWithL n (c :: t) = true
      · exact ⟨0, by unfold findSub; rw [if_pos hs], Nat.zero_le i⟩
      · cases i with
        | zero =>
            rw [List.drop_zero] at h
            exact absurd h hs
        | succ k =>
            rw [List.drop_succ_cons] at h
            obtain ⟨j, hj, hle⟩ := ih k h
            refine ⟨j + 1, ?_, by omega⟩
            unfold findSub
            rw [if_neg hs, hj]
            rfl

lemma startsWithL_append_left : ∀ (a b l : List Char),
    startsWithL (a ++ b) l = true → startsWithL a l = true := by
  intro a
  induction a with
  | nil => intro b l _; rfl
  | cons c t ih =>
      intro b l h
      cases l with
      | nil =>
          simp only [List.cons_append] at h
          exact absurd h (by simp [startsWithL])
      | cons x xs =>
          simp only [List.cons_append] at h
          unfold startsWithL at h ⊢
          rw [Bool.and_eq_true] at h ⊢
          exact ⟨h.1, ih b xs h.2⟩

lemma startsWithL_cons_drop (c : Char) (n s : List Char) (k : Nat)
    (h : startsWithL (c :: n) (List.drop k s) = true) :
    startsWithL n (List.drop (k + 1) s) = true := by
  cases hd : List.drop k s with
  | nil => rw [hd] at h; exact absurd h (by simp [startsWithL])
  | cons x xs =>
      rw [hd] at h
      unfold startsWithL at h
      rw [Bool.and_eq_true] at h
      have hxs : List.drop (k + 1) s = xs := by
        rw [← List.tail_drop, hd]
        rfl
      rw [hxs]
      exact h.2

lemma containsL_of_occurs (n s : List Char) (i : Nat)
    (h : startsWithL n (List.drop i s) = true) : containsL n s = true := by
  obtain ⟨j, hj, _⟩ := findSub_exists n s i h
  unfold containsL
  rw [hj]
  rfl

lemma matchBlock_some_contains (openM closeM s : List Char) (m : BlockMatch)
    (h : matchBlock openM closeM s = some m) :
    containsL openM s = true ∧ containsL closeM s = true := by
  unfold matchBlock at h
  split at h
  · cases h
  next i hf =>
    split at h
    · cases h
    next d hg =>
      constructor
      · have h1 := (findSub_some _ s i hf).1
        exact containsL_of_occurs _ s i (startsWithL_append_left _ _ _ h1)
      · have h2 := (findSub_some _ _ d hg).1
        rw [List.drop_drop] at h2
        exact containsL_of_occurs _ s _ (startsWithL_cons_drop _ _ _ _ h2)

/-- C4 counterexample: a whitespace-only captured before-block still
yields a suggestion object (the JS truthiness test only rejects the
empty capture), so the claimed absence on whitespace-only blocks fails. -/
def c4text : List Char :=
  "x\n--- OLD_CODE ---\n \n--- END_OLD_CODE ---\n--- NEW_CODE ---\ny\n--- END_NEW_CODE ---".data

/-- C4: at an input whose before-block content is a single space, the
extractor returns a suggestion (whose oldCode trims to empty) rather
than absent. -/
theorem c4_whitespace_block_still_parsed :
    parseActionableSuggestion c4text = some ⟨['x'], [' '], ['y']⟩
    ∧ trimWs [' '] = [] := by
  constructor
  · decide
  · decide

/-- C4 (amended): when either delimiter pair is missing the extractor
returns absent, and every suggestion it returns has non-empty (though
possibly whitespace-only) oldCode and newCode; the stronger
non-blank-after-trimming guarantee is enforced by the callers, not by
the extractor. -/
theorem c4_parser_missing_or_empty_blocks :
    ∀ s : List Char,
      ((containsL oldOpenM s = false ∨ containsL oldCloseM s = false ∨
        containsL newOpenM s = false ∨ containsL newCloseM s = false) →
        parseActionableSuggestion s = none)
      ∧ (∀ sug : Suggestion, parseActionableSuggestion s = some sug →
          sug.oldCode ≠ [] ∧ sug.newCode ≠ []) := by
  intro s
  constructor
  · intro hdisj
    cases hp : parseActionableSuggestion s with
    | none => rfl
    | some sug =>
        exfalso
        unfold parseActionableSuggestion at hp
        split at hp
        next om nm hmo hmn =>
          have co := matchBlock_some_contains _ _ _ _ hmo
          have cn := matchBlock_some_contains _ _ _ _ hmn
          rcases hdisj with h | h | h | h <;> simp_all
        next hx hy => cases hp
  · intro sug hp
    unfold parseActionableSuggestion at hp
    split at hp
    next om nm hmo hmn =>
      split at hp
      · cases hp
      next hcap =>
        push_neg at hcap
        injection hp with h2
        subst h2
        exact ⟨hcap.1, hcap.2⟩
    next hx hy => cases hp

/-- C4 witness: the amended theorem applied at concrete inputs — a
marker-free text parses to absent, and a well-formed text yields
non-empty code fields. -/
theorem c4_parser_missing_or_empty_blocks_witness :
    (containsL oldOpenM "plain review text".data = false ∧
     parseActionableSuggestion "plain review text".data = none)
    ∧ (parseActionableSuggestion c4text = some ⟨['x'], [' '], ['y']⟩ ∧
       Suggestion.oldCode ⟨['x'], [' '], ['y']⟩ ≠ [] ∧
       Suggestion.newCode ⟨['x'], [' '], ['y']⟩ ≠ []) :=
  ⟨⟨by decide, (c4_parser_missing_or_empty_blocks "plain review text".data).1
      (Or.inl (by decide))⟩,
   ⟨by decide, (c4_parser_missing_or_empty_blocks c4text).2
      ⟨['x'], [' '], ['y']⟩ (by decide)⟩⟩

/-! ## Concrete end-to-end scenarios -/

def firstText : List ContentItem → List Char
  | .text t :: _ => t
  | _ => []

/-- Bytes of a small JavaScript file. -/
def c2bytes : List Nat := ("console.log(1)".data).map Char.toNat

/-- A subprocess output carrying one well-formed, non-empty
before/after suggestion. -/
def c2output : List Char :=
  "Fix the log call.\n--- OLD_CODE ---\nconsole.log(1)\n--- END_OLD_CODE ---\n--- NEW_CODE ---\nconsole.info(1)\n--- END_NEW_CODE ---".data

def c2env : Env :=
  ⟨"2025-07-19T00:00:00.000Z".data, "/app/project".data, true, true,
   fun p => if p = "/app/project/a.js".data
            then some ⟨true, 14, true, c2bytes, "console.log(1)".data⟩
            else none,
   .ok ⟨c2output, none⟩⟩

def c2run : ToolResponse × Session × List Effect :=
  callTool c2env ⟨none, []⟩ .review { filePath := .vStr "./a.js".data }

set_option maxRecDepth 200000 in
/-- C2: a successful review whose output carries an extracted
suggestion returns a content array that contains a separate executable
`tool_use`/`replace` action object alongside the text entry — not only
descriptive text. -/
theorem c2_review_response_contains_tool_use :
    c2run.1.isError = false
    ∧ ContentItem.toolUse "replace".data "/app/project/a.js".data
        "console.log(1)".data "console.info(1)".data ∈ c2run.1.content
    ∧ c2run.1.content.any
        (fun c => match c with | .toolUse _ _ _ _ => true | _ => false) = true
    ∧ c2run.2.1.reviewHistory.map (fun e => e.extra.actionable) = [some true] := by
  refine ⟨by rfl, ?_, by rfl, by rfl⟩
  have : c2run.1.content =
      [.text (firstText c2run.1.content),
       .toolUse "replace".data "/app/project/a.js".data
         "console.log(1)".data "console.info(1)".data] := by rfl
  rw [this]
  simp

def c8env : Env :=
  ⟨"2025-07-19T00:00:00.000Z".data, "/app/project".data, true, true,
   fun p => if p = "/app/project-evil/x.js".data
            then some ⟨true, 6, true, ("evil()".data).map Char.toNat, "evil()".data⟩
            else none,
   .ok ⟨"OK".data, none⟩⟩

/-- A request whose resolved path escapes the root into a sibling
directory, which the plain prefix check fails to reject. -/
def c8run : ToolResponse × Session × List Effect :=
  callTool c8env ⟨none, []⟩ .review { filePath := .vStr "../project-evil/x.js".data }

/-- The documented example: a plainly traversing relative path is
rejected before any filesystem or subprocess effect. -/
def c8runDocumented : ToolResponse × Session × List Effect :=
  callTool c8env ⟨none, []⟩ .review { filePath := .vStr "../../etc/passwd".data }

set_option maxRecDepth 200000 in
/-- C8: the documented `../../etc/passwd` example is indeed rejected
with a path-traversal error and no effects, but the universal claim
fails: a sibling-escape path resolves outside the root, passes
validation, and the pipeline goes on to read the outside file and spawn
the subprocess with a non-error response. -/
theorem c8_pipeline_proceeds_on_escaped_path :
    (c8runDocumented.1.isError = true
     ∧ containsL "path traversal".data (firstText c8runDocumented.1.content) = true
     ∧ c8runDocumented.2.2 = [])
    ∧ (specRootBoundary "/app/project".data "/app/project-evil/x.js".data = false
       ∧ c8run.1.isError = false
       ∧ c8run.2.2 = [.statFile "/app/project-evil/x.js".data,
                      .openRead "/app/project-evil/x.js".data,
                      .readFile "/app/project-evil/x.js".data,
                      .spawnGemini]) := by
  exact ⟨⟨by rfl, by rfl, by rfl⟩, ⟨by rfl, by rfl, by rfl⟩⟩

/-- C9: every invocation of one of the four analysis operations appends
exactly one session entry (history is extended, never rewritten), the
last-success pointer moves exactly when the appended entry records
success, and the entry records success exactly when the transport
response is not error-flagged. -/
theorem c9_single_session_append :
    ∀ (env : Env) (st : Session) (name : ToolName) (args : CallArgs),
      ∃ e : SessionEntry,
        (callTool env st name args).2.1.reviewHistory = st.reviewHistory ++ [e]
        ∧ (callTool env st name args).2.1.lastReview =
            (if e.success = true then some e else st.lastReview)
        ∧ e.success = !(callTool env st name args).1.isError := by
  intro env st name args
  cases name with
  | review =>
      rcases hr : reviewAttempt env args.filePath args.context
          (args.focusAreas.getD "general".data) args.language with ⟨res, effs⟩
      cases res with
      | ok r =>
          obtain ⟨h, content, extra⟩ := r
          refine ⟨⟨env.now, "code_review".data,
                   trackFile env.workingDirectory (some h.validatedPath),
                   true, none, extra⟩, ?_, ?_, ?_⟩ <;>
            simp [callTool, dispatchTool, geminiCodeReview, hr, trackOperationResult]
      | error m =>
          refine ⟨⟨env.now, "code_review".data,
                   trackFile env.workingDirectory (jsPathOpt args.filePath),
                   false, some m,
                   { language := some (jsValOr args.language "unknown".data),
                     context := some (jsValOr args.context "none".data),
                     focusAreas := some (args.focusAreas.getD "general".data) }⟩,
                  ?_, ?_, ?_⟩ <;>
            simp [callTool, dispatchTool, geminiCodeReview, hr, trackOperationResult]
  | analyze =>
      rcases hr : analyzeAttempt env args.filePath
          (args.analysisType.getD "explain".data) args.language with ⟨res, effs⟩
      cases res with
      | ok r =>
          obtain ⟨h, content⟩ := r
          refine ⟨⟨env.now, "code_analysis".data,
                   trackFile env.workingDirectory (some h.validatedPath),
                   true, none,
                   { language := some h.detectedLanguage,
                     analysisType := some (args.analysisType.getD "explain".data) }⟩,
                  ?_, ?_, ?_⟩ <;>
            simp [callTool, dispatchTool, geminiAnalyzeCode, hr, trackOperationResult]
      | error m =>
          refine ⟨⟨env.now, "code_analysis".data,
                   trackFile env.workingDirectory (jsPathOpt args.filePath),
                   false, some m,
                   { language := some (jsValOr args.language "unknown".data),
                     analysisType := some (args.analysisType.getD "explain".data) }⟩,
                  ?_, ?_, ?_⟩ <;>
            simp [callTool, dispatchTool, geminiAnalyzeCode, hr, trackOperationResult]
  | suggest =>
      rcases hr : suggestAttempt env args.filePath
          (args.improvementGoals.getD "general".data) args.language with ⟨res, effs⟩
      cases res with
      | ok r =>
          obtain ⟨h, content, extra⟩ := r
          refine ⟨⟨env.now, "suggest_improvements".data,
                   trackFile env.workingDirectory (some h.validatedPath),
                   true, none, extra⟩, ?_, ?_, ?_⟩ <;>
            simp [callTool, dispatchTool, geminiSuggestImprovements, hr,
                  trackOperationResult]
      | error m =>
          refine ⟨⟨env.now, "suggest_improvements".data,
                   trackFile env.workingDirectory (jsPathOpt args.filePath),
                   false, some m,
                   { language := some (jsValOr args.language "unknown".data),
                     improvementGoals := some (args.improvementGoals.getD "general".data) }⟩,
                  ?_, ?_, ?_⟩ <;>
            simp [callTool, dispatchTool, geminiSuggestImprovements, hr,
                  trackOperationResult]
  | validateArch =>
      rcases hr : archAttempt env args.filePath
          (args.validationFocus.getD "architecture".data) args.language with ⟨res, effs⟩
      cases res with
      | ok r =>
          obtain ⟨h, content⟩ := r
          refine ⟨⟨env.now, "validate_architecture".data,
                   trackFile env.workingDirectory (some h.validatedPath),
                   true, none,
                   { language := some h.detectedLanguage,
                     validationFocus := some (args.validationFocus.getD "architecture".data) }⟩,
                  ?_, ?_, ?_⟩ <;>
            simp [callTool, dispatchTool, geminiValidateArchitecture, hr,
                  trackOperationResult]
      | error m =>
          refine ⟨⟨env.now, "validate_architecture".data,
                   trackFile env.workingDirectory (jsPathOpt args.filePath),
                   false, some m,
                   { language := some (jsValOr args.language "unknown".data),
                     validationFocus := some (args.validationFocus.getD "architecture".data) }⟩,
                  ?_, ?_, ?_⟩ <;>
            simp [callTool, dispatchTool, geminiValidateArchitecture, hr,
                  trackOperationResult]

/-! ## Occurrence counting and the structural match lemma -/

/-- Number of indices at which `n` occurs as a contiguous sublist of
`s`; "the text contains exactly one well-formed block" is expressed as
each delimiter occurring exactly once. -/
def countOccur (n s : List Char) : Nat :=
  (List.range (s.length + 1)).countP (fun i => startsWithL n (List.drop i s))

lemma startsWithL_self_append : ∀ (n t : List Char), startsWithL n (n ++ t) = true := by
  intro n
  induction n with
  | nil => intro t; rfl
  | cons c m ih =>
      intro t
      simp only [List.cons_append]
      unfold startsWithL
      rw [Bool.and_eq_true]
      exact ⟨by simp, ih t⟩

lemma two_mem_length_le (l : List Nat) (i j : Nat)
    (hi : i ∈ l) (hj : j ∈ l) (hij : i ≠ j) : 2 ≤ l.length := by
  obtain ⟨l1, l2, rfl⟩ := List.append_of_mem hi
  rcases List.mem_append.mp hj with hj1 | hj2
  · have := List.length_pos_of_mem hj1
    simp [List.length_append]
    omega
  · rcases List.mem_cons.mp hj2 with hji | hj3
    · exact absurd hji.symm hij
    · have := List.length_pos_of_mem hj3
      simp [List.length_append]
      omega

lemma two_le_countOccur (n s : List Char) (i j : Nat) (hij : i ≠ j)
    (hi : i ≤ s.length) (hj : j ≤ s.length)
    (h1 : startsWithL n (List.drop i s) = true)
    (h2 : startsWithL n (List.drop j s) = true) : 2 ≤ countOccur n s := by
  unfold countOccur
  rw [List.countP_eq_length_filter]
  apply two_mem_length_le _ i j _ _ hij
  · rw [List.mem_filter]
    exact ⟨List.mem_range.mpr (by omega), h1⟩
  · rw [List.mem_filter]
    exact ⟨List.mem_range.mpr (by omega), h2⟩

lemma countOccur_cons_le (n : List Char) (c : Char) (t : List Char) :
    countOccur n t ≤ countOccur n (c :: t) := by
  have hstep : countOccur n (c :: t) =
      List.countP (fun i => startsWithL n (List.drop i (c :: t)))
        (List.range ((t.length + 1) + 1)) := by
    unfold countOccur
    rw [show (c :: t).length + 1 = (t.length + 1) + 1 from by simp]
  have hcomp : ((fun i => startsWithL n (List.drop i (c :: t))) ∘ Nat.succ) =
      (fun i => startsWithL n (List.drop i t)) := by
    funext i
    simp only [Function.comp]
    rw [List.drop_succ_cons]
  rw [hstep, List.range_succ_eq_map, List.countP_cons, List.countP_map, hcomp]
  unfold countOccur
  omega

lemma countOccur_drop_le (n : List Char) (k : Nat) :
    ∀ s : List Char, countOccur n (List.drop k s) ≤ countOccur n s := by
  induction k with
  | zero => intro s; simp
  | succ m ih =>
      intro s
      cases s with
      | nil => simp
      | cons c t =>
          rw [List.drop_succ_cons]
          exact le_trans (ih t) (countOccur_cons_le n c t)

lemma findSub_eq_of_unique (n s : List Char) (i : Nat)
    (hi : i ≤ s.length) (hocc : startsWithL n (List.drop i s) = true)
    (huniq : countOccur n s ≤ 1) : findSub n s = some i := by
  obtain ⟨j, hj, hle⟩ := findSub_exists n s i hocc
  rcases Nat.lt_or_ge j i with hlt | hge
  · exfalso
    obtain ⟨hjo, hjle⟩ := findSub_some n s j hj
    have := two_le_countOccur n s i j (by omega) hi hjle hocc hjo
    omega
  · have hji : j = i := by omega
    rw [hji] at hj
    exact hj

/-- The structural behaviour of one regex on a text built around one
designated block: when the opening literal `open ++ "\n"` and the
closing literal `"\n" ++ close` each occur exactly once, the match
starts at the block, captures exactly the block content, and ends right
after the closing delimiter. -/
lemma matchBlock_structural (openM closeM pre a rest : List Char)
    (h1 : countOccur (openM ++ ['\n'])
            (pre ++ (openM ++ ['\n']) ++ a ++ ('\n' :: closeM) ++ rest) = 1)
    (h2 : countOccur ('\n' :: closeM)
            (pre ++ (openM ++ ['\n']) ++ a ++ ('\n' :: closeM) ++ rest) = 1) :
    matchBlock openM closeM
        (pre ++ (openM ++ ['\n']) ++ a ++ ('\n' :: closeM) ++ rest) =
      some ⟨pre.length,
            pre.length + openM.length + 1 + a.length + 1 + closeM.length, a⟩ := by
  have hs1 : pre ++ (openM ++ ['\n']) ++ a ++ ('\n' :: closeM) ++ rest =
      pre ++ ((openM ++ ['\n']) ++ (a ++ (('\n' :: closeM) ++ rest))) := by
    simp [List.append_assoc]
  have hs2 : pre ++ (openM ++ ['\n']) ++ a ++ ('\n' :: closeM) ++ rest =
      (pre ++ (openM ++ ['\n'])) ++ (a ++ (('\n' :: closeM) ++ rest)) := by
    simp [List.append_assoc]
  have hs3 : pre ++ (openM ++ ['\n']) ++ a ++ ('\n' :: closeM) ++ rest =
      ((pre ++ (openM ++ ['\n'])) ++ a) ++ (('\n' :: closeM) ++ rest) := by
    simp [List.append_assoc]
  have hlen : (pre ++ (openM ++ ['\n']) ++ a ++ ('\n' :: closeM) ++ rest).length =
      pre.length + (openM.length + 1) + a.length + (closeM.length + 1) + rest.length := by
    simp [List.length_append]
    omega
  have hdropPre : List.drop pre.length
      (pre ++ (openM ++ ['\n']) ++ a ++ ('\n' :: closeM) ++ rest) =
      (openM ++ ['\n']) ++ (a ++ (('\n' :: closeM) ++ rest)) := by
    rw [hs1]
    exact List.drop_left pre _
  have hfind1 : findSub (openM ++ ['\n'])
      (pre ++ (openM ++ ['\n']) ++ a ++ ('\n' :: closeM) ++ rest) = some pre.length := by
    apply findSub_eq_of_unique
    · rw [hlen]; omega
    · rw [hdropPre]
      exact startsWithL_self_append _ _
    · omega
  have hcap : pre.length + openM.length + 1 = (pre ++ (openM ++ ['\n'])).length := by
    simp [List.length_append]
    omega
  have hdropCap : List.drop (pre.length + openM.length + 1)
      (pre ++ (openM ++ ['\n']) ++ a ++ ('\n' :: closeM) ++ rest) =
      a ++ (('\n' :: closeM) ++ rest) := by
    rw [hs2, hcap]
    exact List.drop_left _ _
  have hfind2 : findSub ('\n' :: closeM) (a ++ (('\n' :: closeM) ++ rest)) =
      some a.length := by
    apply findSub_eq_of_unique
    · simp [List.length_append]
    · rw [List.drop_left a _]
      exact startsWithL_self_append _ _
    · have hle := countOccur_drop_le ('\n' :: closeM) (pre.length + openM.length + 1)
        (pre ++ (openM ++ ['\n']) ++ a ++ ('\n' :: closeM) ++ rest)
      rw [hdropCap] at hle
      omega
  have htake : List.take a.length (a ++ (('\n' :: closeM) ++ rest)) = a :=
    List.take_left a _
  unfold matchBlock
  rw [hfind1]
  simp only [hdropCap, hfind2, htake]

/-- Removing the first match of the regex from the assembled text
removes exactly the designated block. -/
lemma removeBlock_structural (openM closeM pre a rest : List Char)
    (h1 : countOccur (openM ++ ['\n'])
            (pre ++ (openM ++ ['\n']) ++ a ++ ('\n' :: closeM) ++ rest) = 1)
    (h2 : countOccur ('\n' :: closeM)
            (pre ++ (openM ++ ['\n']) ++ a ++ ('\n' :: closeM) ++ rest) = 1) :
    removeBlock openM closeM
        (pre ++ (openM ++ ['\n']) ++ a ++ ('\n' :: closeM) ++ rest) = pre ++ rest := by
  unfold removeBlock
  rw [matchBlock_structural openM closeM pre a rest h1 h2]
  have hs4 : pre ++ (openM ++ ['\n']) ++ a ++ ('\n' :: closeM) ++ rest =
      pre ++ (((openM ++ ['\n']) ++ a ++ ('\n' :: closeM)) ++ rest) := by
    simp [List.append_assoc]
  have hs5 : pre ++ (openM ++ ['\n']) ++ a ++ ('\n' :: closeM) ++ rest =
      (pre ++ ((openM ++ ['\n']) ++ a ++ ('\n' :: closeM))) ++ rest := by
    simp [List.append_assoc]
  have htk : List.take pre.length
      (pre ++ (openM ++ ['\n']) ++ a ++ ('\n' :: closeM) ++ rest) = pre := by
    rw [hs4]
    exact List.take_left pre _
  have hlen2 : pre.length + openM.length + 1 + a.length + 1 + closeM.length =
      (pre ++ ((openM ++ ['\n']) ++ a ++ ('\n' :: closeM))).length := by
    simp [List.length_append]
    omega
  have hdr : List.drop (pre.length + openM.length + 1 + a.length + 1 + closeM.length)
      (pre ++ (openM ++ ['\n']) ++ a ++ ('\n' :: closeM) ++ rest) = rest := by
    rw [hs5, hlen2]
    exact List.drop_left _ _
  show List.take pre.length
      (pre ++ (openM ++ ['\n']) ++ a ++ ('\n' :: closeM) ++ rest) ++
    List.drop (pre.length + openM.length + 1 + a.length + 1 + closeM.length)
      (pre ++ (openM ++ ['\n']) ++ a ++ ('\n' :: closeM) ++ rest) = pre ++ rest
  rw [htk, hdr]

/-- A well-formed before-block as the prompt format mandates it. -/
def oldBlockText (a : List Char) : List Char :=
  (oldOpenM ++ ['\n']) ++ a ++ ('\n' :: oldCloseM)

/-- A well-formed after-block. -/
def newBlockText (b : List Char) : List Char :=
  (newOpenM ++ ['\n']) ++ b ++ ('\n' :: newCloseM)

/-- A response text containing one before-block and one after-block in
order, with arbitrary surrounding text. -/
def assembled (pre a mid b post : List Char) : List Char :=
  pre ++ oldBlockText a ++ mid ++ newBlockText b ++ post

/-- C5: on a text containing one well-formed before-block and one
well-formed after-block (each delimiter occurring exactly once, also
after the before-block is removed) with non-empty contents, extraction
returns exactly the delimited contents, and the explanation is the text
with both blocks removed and trimmed; on a text missing either
delimiter pair, extraction returns absent. -/
theorem c5_extractor_round_trip :
    (∀ pre a mid b post : List Char,
      a ≠ [] → b ≠ [] →
      countOccur (oldOpenM ++ ['\n']) (assembled pre a mid b post) = 1 →
      countOccur ('\n' :: oldCloseM) (assembled pre a mid b post) = 1 →
      countOccur (newOpenM ++ ['\n']) (assembled pre a mid b post) = 1 →
      countOccur ('\n' :: newCloseM) (assembled pre a mid b post) = 1 →
      countOccur (newOpenM ++ ['\n']) (pre ++ mid ++ newBlockText b ++ post) = 1 →
      countOccur ('\n' :: newCloseM) (pre ++ mid ++ newBlockText b ++ post) = 1 →
      parseActionableSuggestion (assembled pre a mid b post) =
        some ⟨trimWs (pre ++ mid ++ post), a, b⟩)
    ∧ (∀ s : List Char,
        containsL oldOpenM s = false ∨ containsL newOpenM s = false →
        parseActionableSuggestion s = none) := by
  constructor
  · intro pre a mid b post ha hb h1 h2 h3 h4 h5 h6
    have heq1 : assembled pre a mid b post =
        pre ++ (oldOpenM ++ ['\n']) ++ a ++ ('\n' :: oldCloseM) ++
          (mid ++ newBlockText b ++ post) := by
      simp [assembled, oldBlockText, List.append_assoc]
    have heq2 : assembled pre a mid b post =
        (pre ++ oldBlockText a ++ mid) ++ (newOpenM ++ ['\n']) ++ b ++
          ('\n' :: newCloseM) ++ post := by
      simp [assembled, oldBlockText, newBlockText, List.append_assoc]
    rw [heq1] at h1 h2
    rw [heq2] at h3 h4
    have hmo' : matchBlock oldOpenM oldCloseM (assembled pre a mid b post) =
        some ⟨pre.length,
              pre.length + oldOpenM.length + 1 + a.length + 1 + oldCloseM.length,
              a⟩ := by
      rw [heq1]
      exact matchBlock_structural oldOpenM oldCloseM pre a _ h1 h2
    have hmn' : matchBlock newOpenM newCloseM (assembled pre a mid b post) =
        some ⟨(pre ++ oldBlockText a ++ mid).length,
              (pre ++ oldBlockText a ++ mid).length + newOpenM.length + 1 +
                b.length + 1 + newCloseM.length,
              b⟩ := by
      rw [heq2]
      exact matchBlock_structural newOpenM newCloseM _ b post h3 h4
    have hro' : removeBlock oldOpenM oldCloseM (assembled pre a mid b post) =
        pre ++ (mid ++ newBlockText b ++ post) := by
      rw [heq1]
      exact removeBlock_structural oldOpenM oldCloseM pre a _ h1 h2
    have heq4 : pre ++ mid ++ newBlockText b ++ post =
        (pre ++ mid) ++ (newOpenM ++ ['\n']) ++ b ++ ('\n' :: newCloseM) ++ post := by
      simp [newBlockText, List.append_assoc]
    rw [heq4] at h5 h6
    have heq3 : pre ++ (mid ++ newBlockText b ++ post) =
        (pre ++ mid) ++ (newOpenM ++ ['\n']) ++ b ++ ('\n' :: newCloseM) ++ post := by
      simp [newBlockText, List.append_assoc]
    have hrn : removeBlock newOpenM newCloseM
        ((pre ++ mid) ++ (newOpenM ++ ['\n']) ++ b ++ ('\n' :: newCloseM) ++ post) =
        (pre ++ mid) ++ post :=
      removeBlock_structural newOpenM newCloseM (pre ++ mid) b post h5 h6
    unfold parseActionableSuggestion
    rw [hmo', hmn']
    have hcond : ¬(a = [] ∨ b = []) := not_or.mpr ⟨ha, hb⟩
    simp only [if_neg hcond]
    rw [hro', heq3, hrn]
  · intro s hdisj
    cases hp : parseActionableSuggestion s with
    | none => rfl
    | some sug =>
        exfalso
        unfold parseActionableSuggestion at hp
        split at hp
        next om nm hmo hmn =>
          have co := matchBlock_some_contains _ _ _ _ hmo
          have cn := matchBlock_some_contains _ _ _ _ hmn
          rcases hdisj with h | h <;> simp_all
        next hx hy => cases hp

def c5pre : List Char := "Intro\n".data
def c5a : List Char := "old()".data
def c5mid : List Char := "\nBetween\n".data
def c5b : List Char := "new()".data
def c5post : List Char := "\nTail".data

/-- C5 witness: the round trip at a concrete well-formed text, and
absence at a text carrying only the after-pair. -/
theorem c5_extractor_round_trip_witness :
    (parseActionableSuggestion (assembled c5pre c5a c5mid c5b c5post) =
      some ⟨trimWs (c5pre ++ c5mid ++ c5post), c5a, c5b⟩)
    ∧ parseActionableSuggestion
        "only\n--- NEW_CODE ---\nx\n--- END_NEW_CODE ---\nhere".data = none :=
  ⟨c5_extractor_round_trip.1 c5pre c5a c5mid c5b c5post
     (by decide) (by decide) (by decide) (by decide) (by decide) (by decide)
     (by decide) (by decide),
   c5_extractor_round_trip.2 _ (Or.inl (by decide))⟩

end GeminiReviewer
